import Mathlib

/-!
Verification development for `tools/releasetools/common.py`: the
`BlockDifference` script emitters and the `DynamicPartitionsDifference`
planner, shallowly embedded in Lean 4, with theorems settling the spec
claims about them.
-/

namespace Common

/-! ## Error codes (`class ErrorCode`, common.py lines 111-137) -/

namespace ErrorCode

def SYSTEM_VERIFICATION_FAILURE : Nat := 1000

def SYSTEM_UPDATE_FAILURE : Nat := 1001

def SYSTEM_UNEXPECTED_CONTENTS : Nat := 1002

def SYSTEM_NONZERO_CONTENTS : Nat := 1003

def SYSTEM_RECOVER_FAILURE : Nat := 1004

def VENDOR_VERIFICATION_FAILURE : Nat := 2000

def VENDOR_UPDATE_FAILURE : Nat := 2001

def VENDOR_UNEXPECTED_CONTENTS : Nat := 2002

def VENDOR_NONZERO_CONTENTS : Nat := 2003

def VENDOR_RECOVER_FAILURE : Nat := 2004

end ErrorCode

/-! ## RangeSet and Image -/

/-- Modelled from the spec: the `RangeSet` class (`rangelib.py`) is not under
`src/`; only `common.py` is.  Spec section 4.1 describes it as an immutable set
of block indices supporting `union`, `subtract`, `size` and emptiness.  We
model it as the finite set of block indices it denotes (a list of `Nat`),
which is all the claims need. -/
structure RangeSet where
  blocks : List Nat
deriving DecidableEq

/-- Set subtraction, spec section 4.1 (`subtract(a,b)`). -/
def RangeSet.subtract (a b : RangeSet) : RangeSet :=
  ⟨a.blocks.filter (fun x => !(b.blocks.contains x))⟩

/-- Total block count, spec section 4.1 (`size()`). -/
def RangeSet.size (a : RangeSet) : Nat := a.blocks.length

/-- Python truthiness of a RangeSet: `if not ranges` tests emptiness. -/
def RangeSet.isEmpty (a : RangeSet) : Bool := a.blocks.isEmpty

/-- The block-image view used by `BlockDifference` (`sparse_img` object; the
content hash `TotalSha1` is a black-box digest per spec section 1, modelled as
an abstract field taking the `include_clobbered_blocks` flag). -/
structure Image where
  care_map : RangeSet
  clobbered_blocks : RangeSet
  extended : RangeSet
  TotalSha1 : Bool → String
  blocksize : Nat
  total_blocks : Nat

/-- `BlockDifference._HashZeroBlocks` (lines 2209-2216): the sha1 of
`num_blocks` all-zero 4096-byte blocks.  The digest itself is a black box
(spec section 1); it is a pure function of the block count, modelled by an
injective tag. -/
def HashZeroBlocks (num_blocks : Nat) : String :=
  "sha1-of-" ++ toString num_blocks ++ "-zero-blocks"

/-! ## BlockDifference -/

/-- `class BlockDifference` (lines 1946-2216): the fields its script
emitters read.  `device` is computed in `__init__` from ambient OPTIONS
state (out of scope for the claims) and is kept as an abstract field.
`version` satisfies the constructor assertion `version >= 3`. -/
structure BlockDifference where
  partition : String
  tgt : Image
  src : Option Image
  version : Nat
  check_first_block : Bool
  touched_src_ranges : RangeSet
  touched_src_sha1 : String
  device : String

/-- One `script.AppendExtra` payload: each constructor stands for one of the
literal edify command strings formatted by `BlockDifference`, carrying
exactly the values interpolated into it. -/
inductive EdifyCmd where
  | ifRangeSha1OrBlockImageVerify (device : String) (ranges : RangeSet)
      (sha1 : String) (partition : String)
  | elseBranch
  | checkFirstBlock (device : String)
  | recoverVerifyOrAbortEndif (device : String) (ranges : RangeSet)
      (partition : String) (code : Nat)
  | abortUnexpectedContentsEndif (code : Nat) (partition : String)
  | ifRangeSha1Then (device : String) (ranges : RangeSet) (sha1 : String)
  | elseAbortNonzeroEndif (code : Nat) (partition : String)
  | elseAbortUnexpectedEndif (code : Nat) (partition : String)
  | blockImageUpdateOrAbort (device : String) (partition : String)
      (new_data_name : String) (code : Nat)
  | emptyLine
deriving DecidableEq

/-- One emission to the script sink (`script.Print` / `script.AppendExtra`). -/
inductive ScriptItem where
  | print (msg : String)
  | appendExtra (cmd : EdifyCmd)
deriving DecidableEq

/-- `BlockDifference.WriteVerifyScript` (lines 2039-2107), as the list of
items it emits to the script sink. -/
def BlockDifference.WriteVerifyScript (bd : BlockDifference)
    (touched_blocks_only : Bool) : List ScriptItem :=
  match bd.src with
  | none =>
      [.print ("Image " ++ bd.partition ++ " will be patched unconditionally.")]
  | some src =>
      let ranges := if touched_blocks_only then bd.touched_src_ranges
        else src.care_map.subtract src.clobbered_blocks
      let expected_sha1 := if touched_blocks_only then bd.touched_src_sha1
        else src.TotalSha1 false
      if ranges.isEmpty then []
      else
        [.appendExtra (.ifRangeSha1OrBlockImageVerify bd.device ranges
            expected_sha1 bd.partition),
         .print ("Verified " ++ bd.partition ++ " image..."),
         .appendExtra .elseBranch] ++
        (if bd.version ≥ 4 then
          (if bd.check_first_block then
            [.appendExtra (.checkFirstBlock bd.device)] else []) ++
          [.appendExtra (.recoverVerifyOrAbortEndif bd.device ranges
              bd.partition
              (if bd.partition = "system" then
                ErrorCode.SYSTEM_RECOVER_FAILURE
              else ErrorCode.VENDOR_RECOVER_FAILURE))]
        else
          [.appendExtra (.abortUnexpectedContentsEndif
              (if bd.partition = "system" then
                ErrorCode.SYSTEM_VERIFICATION_FAILURE
              else ErrorCode.VENDOR_VERIFICATION_FAILURE)
              bd.partition)])

/-- `BlockDifference.WritePostInstallVerifyScript` (lines 2109-2150). -/
def BlockDifference.WritePostInstallVerifyScript (bd : BlockDifference) :
    List ScriptItem :=
  [.print ("Verifying qassa " ++ bd.partition ++ " image..."),
   .appendExtra (.ifRangeSha1Then bd.device bd.tgt.care_map
      (bd.tgt.TotalSha1 true))] ++
  (if !bd.tgt.extended.isEmpty then
    [.appendExtra (.ifRangeSha1Then bd.device bd.tgt.extended
        (HashZeroBlocks bd.tgt.extended.size)),
     .print ("Verified qassa " ++ bd.partition ++ " image."),
     .appendExtra (.elseAbortNonzeroEndif
        (if bd.partition = "system" then ErrorCode.SYSTEM_NONZERO_CONTENTS
         else ErrorCode.VENDOR_NONZERO_CONTENTS)
        bd.partition)]
  else
    [.print ("Verified qassa " ++ bd.partition ++ " image.")]) ++
  [.appendExtra (.elseAbortUnexpectedEndif
      (if bd.partition = "system" then ErrorCode.SYSTEM_UNEXPECTED_CONTENTS
       else ErrorCode.VENDOR_UNEXPECTED_CONTENTS)
      bd.partition)]

/-- `BlockDifference._WriteUpdate` (lines 2152-2198), restricted to its
script emission (the zip writes and the brotli compression of the full-OTA
payload are external side effects on the archive, not on the script). -/
def BlockDifference.WriteUpdateScript (bd : BlockDifference) :
    List ScriptItem :=
  let new_data_name := match bd.src with
    | none => bd.partition ++ ".new.dat.br"
    | some _ => bd.partition ++ ".new.dat"
  [.appendExtra (.blockImageUpdateOrAbort bd.device bd.partition new_data_name
      (if bd.partition = "system" then ErrorCode.SYSTEM_UPDATE_FAILURE
       else ErrorCode.VENDOR_UPDATE_FAILURE))]

/-- The item emits a `block_image_recover` call (only the
recover-verify-abort command of `WriteVerifyScript` does). -/
def ScriptItem.mentionsBlockImageRecover : ScriptItem → Prop
  | .appendExtra (.recoverVerifyOrAbortEndif _ _ _ _) => True
  | _ => False

/-- The abort error code carried by a script item, if any. -/
def ScriptItem.emittedCode : ScriptItem → Option Nat
  | .appendExtra (.recoverVerifyOrAbortEndif _ _ _ c) => some c
  | .appendExtra (.abortUnexpectedContentsEndif c _) => some c
  | .appendExtra (.elseAbortNonzeroEndif c _) => some c
  | .appendExtra (.elseAbortUnexpectedEndif c _) => some c
  | .appendExtra (.blockImageUpdateOrAbort _ _ _ c) => some c
  | _ => none

/-- The five classes of install-time failure a `BlockDifference` script can
abort with. -/
inductive CodeKind where
  | verification
  | update
  | unexpected
  | nonzero
  | recover
deriving DecidableEq

/-- The `SYSTEM_*` member of `ErrorCode` for each failure class. -/
def systemCode : CodeKind → Nat
  | .verification => ErrorCode.SYSTEM_VERIFICATION_FAILURE
  | .update => ErrorCode.SYSTEM_UPDATE_FAILURE
  | .unexpected => ErrorCode.SYSTEM_UNEXPECTED_CONTENTS
  | .nonzero => ErrorCode.SYSTEM_NONZERO_CONTENTS
  | .recover => ErrorCode.SYSTEM_RECOVER_FAILURE

/-- The `VENDOR_*` member of `ErrorCode` for each failure class. -/
def vendorCode : CodeKind → Nat
  | .verification => ErrorCode.VENDOR_VERIFICATION_FAILURE
  | .update => ErrorCode.VENDOR_UPDATE_FAILURE
  | .unexpected => ErrorCode.VENDOR_UNEXPECTED_CONTENTS
  | .nonzero => ErrorCode.VENDOR_NONZERO_CONTENTS
  | .recover => ErrorCode.VENDOR_RECOVER_FAILURE

/-- The two-way code choice every emission site performs:
`if partition == "system": SYSTEM_* else: VENDOR_*`. -/
def partitionCode (partition : String) (k : CodeKind) : Nat :=
  if partition = "system" then systemCode k else vendorCode k

/-- Concrete source image used to instantiate the theorems. -/
def exSrcImage : Image :=
  ⟨⟨[0, 1]⟩, ⟨[]⟩, ⟨[]⟩, fun _ => "srchash", 4096, 2⟩

/-- Concrete target image with a non-empty extended region. -/
def exTgtImage : Image :=
  ⟨⟨[0, 1]⟩, ⟨[]⟩, ⟨[2]⟩, fun _ => "tgthash", 4096, 2⟩

/-- A version-3 incremental `BlockDifference` on partition `system`. -/
def exBd3 : BlockDifference :=
  ⟨"system", exTgtImage, some exSrcImage, 3, false, ⟨[0]⟩, "touchedsha", "dev"⟩

/-- A source image whose care map is fully clobbered, so the default check
range (care map minus clobbered blocks) is empty. -/
def exSrcImageFullyClobbered : Image :=
  ⟨⟨[0]⟩, ⟨[0]⟩, ⟨[]⟩, fun _ => "s", 4096, 1⟩

/-- An incremental `BlockDifference` whose source check range is empty. -/
def exBdEmptyCheck : BlockDifference :=
  ⟨"vendor", exTgtImage, some exSrcImageFullyClobbered, 4, false, ⟨[]⟩,
   "touchedsha", "dev"⟩

/-! ## DynamicPartitionsDifference: data model -/

/-- `class DynamicPartitionUpdate` (lines 2430-2454): per-partition source
and target group, with the derived sizes `src_size`/`tgt_size`
(`blocksize * total_blocks` of the owning BlockDifference's image, 0 when
the image is absent).  `progress` is presentation metadata never consulted
by the planner and is omitted. -/
structure DynamicPartitionUpdate where
  src_group : Option String
  tgt_group : Option String
  src_size : Nat
  tgt_size : Nat
deriving DecidableEq

/-- `class DynamicGroupUpdate` (lines 2457-2461).
`none`: group does not exist.  `some 0`: no size limit. -/
structure DynamicGroupUpdate where
  src_size : Option Nat
  tgt_size : Option Nat
deriving DecidableEq

/-- `DynamicPartitionUpdate._GetSparseImageSize` (lines 2450-2454). -/
def GetSparseImageSize : Option Image → Nat
  | none => 0
  | some img => img.blocksize * img.total_blocks

/-- One line of the `dynamic_partitions_op_list` artifact: the verbs of
spec section 6, plus the `#`-prefixed comment lines `_Compute` interleaves
with them. -/
inductive Op where
  | comment (text : String)
  | remove_all_groups
  | remove (p : String)
  | move (p g : String)
  | resize (p : String) (size : Nat)
  | remove_group (g : String)
  | resize_group (g : String) (size : Nat)
  | add_group (g : String) (size : Nat)
  | add (p g : String)
deriving DecidableEq

/-- `class DynamicPartitionsDifference`: the state `_Compute` reads.  The
insertion-ordered `OrderedDict`s `_partition_updates` and `_group_updates`
are association lists; the two mode flags are set in `__init__`
(lines 2464-2547). -/
structure DynamicPartitionsDifference where
  partition_updates : List (String × DynamicPartitionUpdate)
  group_updates : List (String × DynamicGroupUpdate)
  build_without_vendor : Bool
  remove_all_before_apply : Bool
deriving DecidableEq

/-! Per-entry operation emitters, one per loop of `_Compute`
(lines 2584-2655).  Guards follow Python truthiness: a group field is
truthy iff it is not `None` (group names from `shlex.split` are never
empty), a size is truthy iff non-zero. -/

/-- Lines 2599-2601: system-only build, resize every partition. -/
def bwvResizeOps (pu : String × DynamicPartitionUpdate) : List Op :=
  [.comment ("Resize partition " ++ pu.1 ++ " to " ++ toString pu.2.tgt_size),
   .resize pu.1 pu.2.tgt_size]

/-- Lines 2609-2611: remove partitions in source but not target. -/
def removePartOps (pu : String × DynamicPartitionUpdate) : List Op :=
  match pu.2.src_group, pu.2.tgt_group with
  | some _, none => [.remove pu.1]
  | _, _ => []

/-- Lines 2613-2616: stage group-changing partitions in `default`. -/
def moveDefaultOps (pu : String × DynamicPartitionUpdate) : List Op :=
  match pu.2.src_group, pu.2.tgt_group with
  | some gs, some gt =>
      if gs ≠ gt then
        [.comment ("Move partition " ++ pu.1 ++ " from " ++ gs ++
          " to default"),
         .move pu.1 "default"]
      else []
  | _, _ => []

/-- Lines 2618-2622: shrink partitions whose target size is smaller. -/
def shrinkPartOps (pu : String × DynamicPartitionUpdate) : List Op :=
  if pu.2.src_size ≠ 0 ∧ pu.2.tgt_size ≠ 0 ∧
      pu.2.src_size > pu.2.tgt_size then
    [.comment ("Shrink partition " ++ pu.1 ++ " from " ++
      toString pu.2.src_size ++ " to " ++ toString pu.2.tgt_size),
     .resize pu.1 pu.2.tgt_size]
  else []

/-- Lines 2624-2630: remove groups gone from the target; shrink groups
whose target ceiling is smaller. -/
def groupRemoveShrinkOps (ge : String × DynamicGroupUpdate) : List Op :=
  (match ge.2.src_size, ge.2.tgt_size with
   | some _, none => [.remove_group ge.1]
   | _, _ => []) ++
  (match ge.2.src_size, ge.2.tgt_size with
   | some s, some t =>
       if s > t then
         [.comment ("Shrink group " ++ ge.1 ++ " from " ++ toString s ++
           " to " ++ toString t),
          .resize_group ge.1 t]
       else []
   | _, _ => [])

/-- Lines 2632-2639: add groups new in the target; grow groups whose
target ceiling is larger. -/
def groupAddGrowOps (ge : String × DynamicGroupUpdate) : List Op :=
  (match ge.2.src_size, ge.2.tgt_size with
   | none, some t =>
       [.comment ("Add group " ++ ge.1 ++ " with maximum size " ++
         toString t),
        .add_group ge.1 t]
   | _, _ => []) ++
  (match ge.2.src_size, ge.2.tgt_size with
   | some s, some t =>
       if s < t then
         [.comment ("Grow group " ++ ge.1 ++ " from " ++ toString s ++
           " to " ++ toString t),
          .resize_group ge.1 t]
       else []
   | _, _ => [])

/-- Lines 2641-2644: add partitions newly appearing in a target group. -/
def addPartOps (pu : String × DynamicPartitionUpdate) : List Op :=
  match pu.2.src_group, pu.2.tgt_group with
  | none, some gt =>
      [.comment ("Add partition " ++ pu.1 ++ " to group " ++ gt),
       .add pu.1 gt]
  | _, _ => []

/-- Lines 2646-2649: grow partitions whose target size is larger. -/
def growPartOps (pu : String × DynamicPartitionUpdate) : List Op :=
  if pu.2.tgt_size ≠ 0 ∧ pu.2.src_size < pu.2.tgt_size then
    [.comment ("Grow partition " ++ pu.1 ++ " from " ++
      toString pu.2.src_size ++ " to " ++ toString pu.2.tgt_size),
     .resize pu.1 pu.2.tgt_size]
  else []

/-- Lines 2651-2655: move staged partitions to their target group. -/
def moveTargetOps (pu : String × DynamicPartitionUpdate) : List Op :=
  match pu.2.src_group, pu.2.tgt_group with
  | some gs, some gt =>
      if gs ≠ gt then
        [.comment ("Move partition " ++ pu.1 ++ " from default to " ++ gt),
         .move pu.1 gt]
      else []
  | _, _ => []

/-- Lines 2604-2607: the clean-slate preamble of a pure full install. -/
def preOps (d : DynamicPartitionsDifference) : List Op :=
  if d.remove_all_before_apply then
    [.comment ("Remove all existing dynamic partitions and groups " ++
      "before applying full OTA"),
     .remove_all_groups]
  else []

/-- `DynamicPartitionsDifference._Compute` (lines 2584-2655): the ordered
operation list. -/
def DynamicPartitionsDifference.Compute
    (d : DynamicPartitionsDifference) : List Op :=
  if d.build_without_vendor then
    [.comment "System-only build, keep original vendor partition"] ++
    d.partition_updates.flatMap bwvResizeOps
  else
    preOps d ++
    d.partition_updates.flatMap removePartOps ++
    d.partition_updates.flatMap moveDefaultOps ++
    d.partition_updates.flatMap shrinkPartOps ++
    d.group_updates.flatMap groupRemoveShrinkOps ++
    d.group_updates.flatMap groupAddGrowOps ++
    d.partition_updates.flatMap addPartOps ++
    d.partition_updates.flatMap growPartOps ++
    d.partition_updates.flatMap moveTargetOps

/-! ## DynamicPartitionsDifference: constructor (`__init__`) -/

/-- The info-dict keys `__init__` reads.  The `shlex.split`/`int` parsing
of the raw string values is external plumbing; fields hold the parsed
values.  `super_group_partition_list g` stands for the key
`super_<g>_partition_list` (default `""`), `super_group_size g` for
`super_<g>_group_size` (default `"0"`). -/
structure InfoDict where
  super_partition_groups : List String
  super_group_partition_list : String → List String
  super_group_size : String → Nat
  dynamic_partition_list : List String

/-- The empty dict substituted for a missing `source_info_dict`
(line 2474). -/
def emptyInfoDict : InfoDict := ⟨[], fun _ => [], fun _ => 0, []⟩

/-- Key membership in an association list (`p in self._partition_updates`). -/
def containsKey {β : Type} (l : List (String × β)) (k : String) : Bool :=
  l.any (fun e => e.1 == k)

/-- Lookup in an association list (`OrderedDict` read). -/
def findEntry {β : Type} (l : List (String × β)) (k : String) : Option β :=
  match l with
  | [] => none
  | e :: rest => if e.1 = k then some e.2 else findEntry rest k

/-- In-place field update of an existing key (`dict[k].field = v`). -/
def setEntry {β : Type} (l : List (String × β)) (k : String) (f : β → β) :
    List (String × β) :=
  l.map (fun e => if e.1 = k then (e.1, f e.2) else e)

/-- `dict[k] = v`: replace in place if the key exists, else append. -/
def replaceOrAppend {β : Type} (l : List (String × β)) (k : String)
    (v : β) : List (String × β) :=
  if containsKey l k then l.map (fun e => if e.1 = k then (k, v) else e)
  else l ++ [(k, v)]

/-- Record membership of partition `p` in group `g` on one side. -/
def setTgtGroup (g : String) (u : DynamicPartitionUpdate) :
    DynamicPartitionUpdate :=
  { u with tgt_group := some g }

/-- Record membership of partition `p` in group `g` on the source side. -/
def setSrcGroup (g : String) (u : DynamicPartitionUpdate) :
    DynamicPartitionUpdate :=
  { u with src_group := some g }

/-- One step of a group-assignment loop: assert the partition has a
BlockDifference (`assert p in self._partition_updates`), then record its
group. -/
def assignBody (msgSide : String)
    (setter : String → DynamicPartitionUpdate → DynamicPartitionUpdate)
    (g : String) (ups2 : List (String × DynamicPartitionUpdate))
    (p : String) :
    Except String (List (String × DynamicPartitionUpdate)) :=
  if containsKey ups2 p then
    Except.ok (setEntry ups2 p (setter g))
  else
    Except.error (p ++ " is in " ++ msgSide ++ " super_" ++ g ++
      "_partition_list but no BlockDifference object is provided.")

/-- The doubly-nested group-assignment loop shared by the target side
(lines 2498-2504) and the source side (lines 2506-2512). -/
def assignLoop (msgSide : String)
    (setter : String → DynamicPartitionUpdate → DynamicPartitionUpdate)
    (updates : List (String × DynamicPartitionUpdate))
    (groups : List String) (lists : String → List String) :
    Except String (List (String × DynamicPartitionUpdate)) :=
  groups.foldlM (fun ups g =>
    (lists g).foldlM (assignBody msgSide setter g) ups) updates

/-- Lines 2498-2504: for each target group, assert every partition in its
list has a BlockDifference and record its target group. -/
def assignTgtGroups (updates : List (String × DynamicPartitionUpdate))
    (groups : List String) (lists : String → List String) :
    Except String (List (String × DynamicPartitionUpdate)) :=
  assignLoop "target" setTgtGroup updates groups lists

/-- Lines 2506-2512: same for the source side. -/
def assignSrcGroups (updates : List (String × DynamicPartitionUpdate))
    (groups : List String) (lists : String → List String) :
    Except String (List (String × DynamicPartitionUpdate)) :=
  assignLoop "source" setSrcGroup updates groups lists

/-- Python set equality of two name lists. -/
def sameStringSet (a b : List String) : Bool :=
  a.all (fun x => b.contains x) && b.all (fun x => a.contains x)

/-- Lines 2483-2487: the initial `_partition_updates`, one fresh record
per BlockDifference, keyed by partition, in list order. -/
def initUpdates (bds : List BlockDifference) :
    List (String × DynamicPartitionUpdate) :=
  bds.map (fun bd =>
    (bd.partition,
      (⟨none, none, GetSparseImageSize bd.src,
        GetSparseImageSize (some bd.tgt)⟩ : DynamicPartitionUpdate)))

/-- Lines 2534-2545: build `_group_updates` - target groups first (fresh
record with `tgt_size`), then source groups (set `src_size`, appending a
fresh record for groups absent from the target). -/
def buildGroupUpdates (tgt_groups src_groups : List String)
    (info src_info : InfoDict) : List (String × DynamicGroupUpdate) :=
  src_groups.foldl (fun l g =>
      if containsKey l g then
        setEntry l g (fun gu =>
          { gu with src_size := some (src_info.super_group_size g) })
      else l ++ [(g, ⟨some (src_info.super_group_size g), none⟩)])
    (tgt_groups.foldl (fun l g =>
      replaceOrAppend l g ⟨none, some (info.super_group_size g)⟩) [])

/-- `DynamicPartitionsDifference.__init__` (lines 2465-2547): the
validated construction.  Each `assert` is an `Except.error`; `progress`
plumbing is omitted (never read by the planner).  The membership asserts
of the group-list loops are raised by `assignTgtGroups`/`assignSrcGroups`
in loop order. -/
def mkDynamicPartitionsDifference (info : InfoDict)
    (block_diffs : List BlockDifference) (source_info : Option InfoDict)
    (build_without_vendor : Bool) :
    Except String DynamicPartitionsDifference :=
  let remove_all := source_info.isNone
  let src_info := source_info.getD emptyInfoDict
  if (block_diffs.map (fun bd => bd.partition)).Nodup then
    let updates0 := initUpdates block_diffs
    let tgt_groups := info.super_partition_groups
    let src_groups := src_info.super_partition_groups
    match assignTgtGroups updates0 tgt_groups
        info.super_group_partition_list with
    | .error e => .error e
    | .ok updates1 =>
      match assignSrcGroups updates1 src_groups
          src_info.super_group_partition_list with
      | .error e => .error e
      | .ok updates2 =>
        if sameStringSet
            ((updates2.filter (fun pu => pu.2.tgt_size != 0)).map Prod.fst)
            info.dynamic_partition_list then
          if sameStringSet
              ((updates2.filter (fun pu => pu.2.src_size != 0)).map
                Prod.fst)
              src_info.dynamic_partition_list then
            .ok ⟨updates2,
              buildGroupUpdates tgt_groups src_groups info src_info,
              build_without_vendor, remove_all⟩
          else .error "Source Dynamic partitions mismatch"
        else .error "Target Dynamic partitions mismatch"
  else .error "Duplicated BlockDifference object"

/-! ## Replay semantics for the operation list -/

/-- Modelled from the spec: the install-time agent that replays
`dynamic_partitions_op_list` (`update_dynamic_partitions`) is not part of
this repository.  Spec sections 3 and 6 define the replayed state: the
dynamic partitions with their owning group and size, and the groups with
their declared size ceiling (`0`: no size limit). -/
structure DynState where
  parts : String → Option (String × Nat)
  groups : String → Option Nat

/-- Modelled from the spec: effect of one operation-list line (spec
section 6 verbs) on the replay state.  `add` creates a member of the given
group with size 0 (the verb carries no size; sizes are set by `resize`),
`move` keeps the size, `remove_all_groups` clears every group and
partition, and group verbs set or clear the named ceiling. -/
def applyOp (s : DynState) : Op → DynState
  | .comment _ => s
  | .remove_all_groups => ⟨fun _ => none, fun _ => none⟩
  | .remove p => ⟨fun q => if q = p then none else s.parts q, s.groups⟩
  | .move p g =>
      ⟨fun q => if q = p then (s.parts p).map (fun v => (g, v.2))
        else s.parts q, s.groups⟩
  | .resize p n =>
      ⟨fun q => if q = p then (s.parts p).map (fun v => (v.1, n))
        else s.parts q, s.groups⟩
  | .remove_group g =>
      ⟨s.parts, fun h => if h = g then none else s.groups h⟩
  | .resize_group g n =>
      ⟨s.parts, fun h => if h = g then some n else s.groups h⟩
  | .add_group g n =>
      ⟨s.parts, fun h => if h = g then some n else s.groups h⟩
  | .add p g =>
      ⟨fun q => if q = p then some (g, 0) else s.parts q, s.groups⟩

/-- Replaying a list of operations in order. -/
def replay (s : DynState) (ops : List Op) : DynState := ops.foldl applyOp s

/-- The declared source topology as a replay state. -/
def srcState (d : DynamicPartitionsDifference) : DynState :=
  ⟨fun p => match findEntry d.partition_updates p with
    | some u => match u.src_group with
      | some g => some (g, u.src_size)
      | none => none
    | none => none,
   fun g => match findEntry d.group_updates g with
    | some gu => gu.src_size
    | none => none⟩

/-- The declared target topology as a replay state. -/
def tgtState (d : DynamicPartitionsDifference) : DynState :=
  ⟨fun p => match findEntry d.partition_updates p with
    | some u => match u.tgt_group with
      | some g => some (g, u.tgt_size)
      | none => none
    | none => none,
   fun g => match findEntry d.group_updates g with
    | some gu => gu.tgt_size
    | none => none⟩

/-- Size a partition-state value contributes to group `g`. -/
def contribV : Option (String × Nat) → String → Nat
  | some (h, n), g => if h = g then n else 0
  | none, _ => 0

/-- Running total member size of group `g` (all partitions ever planned
are keys of `_partition_updates`). -/
def usage (entries : List (String × DynamicPartitionUpdate))
    (s : DynState) (g : String) : Nat :=
  (entries.map (fun pu => contribV (s.parts pu.1) g)).sum

/-- No group with a declared finite ceiling is over-committed. -/
def SafeState (d : DynamicPartitionsDifference) (s : DynState) : Prop :=
  ∀ g c, s.groups g = some c → c ≠ 0 →
    usage d.partition_updates s g ≤ c

/-- Size partition `pu` occupies in group `g` in the source topology. -/
def srcContrib (g : String) (pu : String × DynamicPartitionUpdate) : Nat :=
  if pu.2.src_group = some g then pu.2.src_size else 0

/-- Size partition `pu` occupies in group `g` in the target topology. -/
def tgtContrib (g : String) (pu : String × DynamicPartitionUpdate) : Nat :=
  if pu.2.tgt_group = some g then pu.2.tgt_size else 0

/-- Total declared source member size of group `g`. -/
def srcGroupSum (entries : List (String × DynamicPartitionUpdate))
    (g : String) : Nat :=
  (entries.map (srcContrib g)).sum

/-- Total declared target member size of group `g`. -/
def tgtGroupSum (entries : List (String × DynamicPartitionUpdate))
    (g : String) : Nat :=
  (entries.map (tgtContrib g)).sum

/-- The declared source topology fits in its ceilings. -/
def ValidSource (d : DynamicPartitionsDifference) : Prop :=
  ∀ ge ∈ d.group_updates, ∀ c, ge.2.src_size = some c → c ≠ 0 →
    srcGroupSum d.partition_updates ge.1 ≤ c

/-- The declared target topology fits in its ceilings. -/
def ValidTarget (d : DynamicPartitionsDifference) : Prop :=
  ∀ ge ∈ d.group_updates, ∀ c, ge.2.tgt_size = some c → c ≠ 0 →
    tgtGroupSum d.partition_updates ge.1 ≤ c

/-- The planner input declares no source topology at all (as `__init__`
produces when `source_info_dict` is `None`). -/
def SourceEmpty (d : DynamicPartitionsDifference) : Prop :=
  (∀ pu ∈ d.partition_updates,
    pu.2.src_group = none ∧ pu.2.src_size = 0) ∧
  (∀ ge ∈ d.group_updates, ge.2.src_size = none)

/-- A coherent planner input: distinct names, a partition belongs to a
side's group exactly when it has a size on that side (every dynamic
partition is in a group list), `default` is the reserved transient group
(never a declared one), and a full install declares an empty source. -/
def WellFormed (d : DynamicPartitionsDifference) : Prop :=
  (d.partition_updates.map Prod.fst).Nodup ∧
  (d.group_updates.map Prod.fst).Nodup ∧
  (∀ pu ∈ d.partition_updates,
    (pu.2.src_group.isSome ↔ pu.2.src_size ≠ 0) ∧
    (pu.2.tgt_group.isSome ↔ pu.2.tgt_size ≠ 0)) ∧
  (∀ ge ∈ d.group_updates, ge.1 ≠ "default") ∧
  (d.remove_all_before_apply = true → SourceEmpty d)

/-! ## Pointwise view of replay -/

/-- Effect of one operation on the state of the single partition `p`. -/
def partStep (p : String) (v : Option (String × Nat)) :
    Op → Option (String × Nat)
  | .comment _ => v
  | .remove_all_groups => none
  | .remove q => if p = q then none else v
  | .move q g => if p = q then v.map (fun w => (g, w.2)) else v
  | .resize q n => if p = q then v.map (fun w => (w.1, n)) else v
  | .add q g => if p = q then some (g, 0) else v
  | .remove_group _ => v
  | .resize_group _ _ => v
  | .add_group _ _ => v

/-- Effect of one operation on the ceiling of the single group `g`. -/
def groupStep (g : String) (c : Option Nat) : Op → Option Nat
  | .comment _ => c
  | .remove_all_groups => none
  | .remove _ => c
  | .move _ _ => c
  | .resize _ _ => c
  | .add _ _ => c
  | .remove_group h => if g = h then none else c
  | .resize_group h n => if g = h then some n else c
  | .add_group h n => if g = h then some n else c

/-- The operation touches no group ceiling and no partition but `p`. -/
def PartLocal (p : String) : Op → Prop
  | .comment _ => True
  | .remove q => q = p
  | .move q _ => q = p
  | .resize q _ => q = p
  | .add q _ => q = p
  | .remove_all_groups => False
  | .remove_group _ => False
  | .resize_group _ _ => False
  | .add_group _ _ => False

/-- The operation touches no partition and no group ceiling but `g`. -/
def GroupLocal (g : String) : Op → Prop
  | .comment _ => True
  | .remove_group h => h = g
  | .resize_group h _ => h = g
  | .add_group h _ => h = g
  | .remove_all_groups => False
  | .remove _ => False
  | .move _ _ => False
  | .resize _ _ => False
  | .add _ _ => False

/-! ## Per-phase partition and group values

`pvalK pu` is partition `pu`'s replay-state value after the phase ending
at source line K; `gvalK` the same for group ceilings. -/

/-- Value in the declared source state (before any operation). -/
def pval0 (pu : String × DynamicPartitionUpdate) : Option (String × Nat) :=
  match pu.2.src_group with
  | some g => some (g, pu.2.src_size)
  | none => none

/-- After the removal loop (lines 2609-2611). -/
def pval3 (pu : String × DynamicPartitionUpdate) : Option (String × Nat) :=
  match pu.2.src_group, pu.2.tgt_group with
  | some g, some _ => some (g, pu.2.src_size)
  | _, _ => none

/-- After the move-to-default loop (lines 2613-2616). -/
def pval4 (pu : String × DynamicPartitionUpdate) : Option (String × Nat) :=
  match pu.2.src_group, pu.2.tgt_group with
  | some gs, some gt =>
      some (if gs = gt then gs else "default", pu.2.src_size)
  | _, _ => none

/-- Size after the partition-shrink loop (lines 2618-2622). -/
def size5 (pu : String × DynamicPartitionUpdate) : Nat :=
  if pu.2.src_size ≠ 0 ∧ pu.2.tgt_size ≠ 0 ∧
      pu.2.src_size > pu.2.tgt_size then
    pu.2.tgt_size
  else pu.2.src_size

/-- After the partition-shrink loop (lines 2618-2622). -/
def pval5 (pu : String × DynamicPartitionUpdate) : Option (String × Nat) :=
  match pu.2.src_group, pu.2.tgt_group with
  | some gs, some gt =>
      some (if gs = gt then gs else "default", size5 pu)
  | _, _ => none

/-- After the partition-add loop (lines 2641-2644). -/
def pval8 (pu : String × DynamicPartitionUpdate) : Option (String × Nat) :=
  match pu.2.src_group, pu.2.tgt_group with
  | some gs, some gt =>
      some (if gs = gt then gs else "default", size5 pu)
  | none, some gt => some (gt, 0)
  | _, _ => none

/-- Size after the partition-grow loop, from the size `cur` before it. -/
def size9 (pu : String × DynamicPartitionUpdate) (cur : Nat) : Nat :=
  if pu.2.tgt_size ≠ 0 ∧ pu.2.src_size < pu.2.tgt_size then pu.2.tgt_size
  else cur

/-- After the partition-grow loop (lines 2646-2649). -/
def pval9 (pu : String × DynamicPartitionUpdate) : Option (String × Nat) :=
  match pu.2.src_group, pu.2.tgt_group with
  | some gs, some gt =>
      some (if gs = gt then gs else "default", size9 pu (size5 pu))
  | none, some gt => some (gt, size9 pu 0)
  | _, _ => none

/-- After the final move-to-target loop (lines 2651-2655). -/
def pval10 (pu : String × DynamicPartitionUpdate) : Option (String × Nat) :=
  match pu.2.src_group, pu.2.tgt_group with
  | some _, some gt => some (gt, size9 pu (size5 pu))
  | none, some gt => some (gt, size9 pu 0)
  | _, _ => none

/-- Value in the declared target state. -/
def tgtVal (pu : String × DynamicPartitionUpdate) : Option (String × Nat) :=
  match pu.2.tgt_group with
  | some g => some (g, pu.2.tgt_size)
  | none => none

/-- Group ceiling in the declared source state. -/
def gval0 (ge : String × DynamicGroupUpdate) : Option Nat := ge.2.src_size

/-- Group ceiling after the group remove/shrink loop (lines 2624-2630). -/
def gval6 (ge : String × DynamicGroupUpdate) : Option Nat :=
  match ge.2.src_size, ge.2.tgt_size with
  | some s, some t => some (if s > t then t else s)
  | _, _ => none

/-- Group ceiling after the group add/grow loop (lines 2632-2639):
exactly the declared target ceiling. -/
def gval7 (ge : String × DynamicGroupUpdate) : Option Nat := ge.2.tgt_size

/-! ## Statement helpers for the ordering and output-shape claims -/

/-- `P`-operations all appear strictly before `Q`-operations in `l`. -/
def OpsOrdered (P Q : Op → Prop) (l : List Op) : Prop :=
  ∀ i j, ∀ hi : i < l.length, ∀ hj : j < l.length,
    P (l.get ⟨i, hi⟩) → Q (l.get ⟨j, hj⟩) → i < j

/-- Comment lines of the operation list (`# ...`). -/
def Op.isComment : Op → Bool
  | .comment _ => true
  | _ => false

/-- The first non-comment line of an operation list. -/
def firstNonCommentOp (l : List Op) : Option Op :=
  (l.filter (fun op => !op.isComment)).head?

/-- The operation is a partition operation naming partition `p`. -/
def MentionsPartitionOp (p : String) : Op → Prop
  | .remove q => q = p
  | .move q _ => q = p
  | .resize q _ => q = p
  | .add q _ => q = p
  | _ => False

/-- The operation is a group operation naming group `g`. -/
def MentionsGroupCeilingOp (g : String) : Op → Prop
  | .remove_group h => h = g
  | .resize_group h _ => h = g
  | .add_group h _ => h = g
  | _ => False

/-- Success tester for the validated constructor. -/
def exceptIsOk : Except String DynamicPartitionsDifference → Bool
  | .ok _ => true
  | .error _ => false

/-- The names-and-sizes view of `_partition_updates`, unchanged by the
group-assignment loops (which only set the group fields). -/
def sizesView (l : List (String × DynamicPartitionUpdate)) :
    List (String × Nat × Nat) :=
  l.map (fun e => (e.1, e.2.src_size, e.2.tgt_size))

/-- The planner state of a pure full install with nothing to plan. -/
def dFull : DynamicPartitionsDifference := ⟨[], [], false, true⟩

/-- A full-install BlockDifference for partition `system` (no source
image, one 4096-byte target block). -/
def bdSystem : BlockDifference :=
  ⟨"system", ⟨⟨[0]⟩, ⟨[]⟩, ⟨[]⟩, fun _ => "h", 4096, 1⟩, none, 4, false,
   ⟨[]⟩, "s", "dev"⟩

/-- A consistent one-group target topology declaring only `system`. -/
def infoC6 : InfoDict :=
  ⟨["qassa"], fun g => if g = "qassa" then ["system"] else [],
   fun _ => 8192, ["system"]⟩

/-- A concrete planner input: group `qassa` shrinks 100 -> 50 while its
member `system` shrinks 90 -> 40; partition `odm` moves from the removed
group `oldg` to the added group `newg` with unchanged size 30. -/
def dExample : DynamicPartitionsDifference :=
  ⟨[("system", ⟨some "qassa", some "qassa", 90, 40⟩),
    ("odm", ⟨some "oldg", some "newg", 30, 30⟩)],
   [("qassa", ⟨some 100, some 50⟩),
    ("oldg", ⟨some 40, none⟩),
    ("newg", ⟨none, some 30⟩)],
   false, false⟩

/-- A planner input for the system-only build mode with one partition of
unchanged size and group. -/
def dExampleBwv : DynamicPartitionsDifference :=
  ⟨[("system", ⟨some "qassa", some "qassa", 100, 100⟩)],
   [("qassa", ⟨some 200, some 200⟩)],
   true, false⟩

/-- State description at a phase boundary: every planned partition holds
its per-phase value, every declared group its per-phase ceiling, and
nothing else exists. -/
def StateDescr (d : DynamicPartitionsDifference)
    (pv : String × DynamicPartitionUpdate → Option (String × Nat))
    (gv : String × DynamicGroupUpdate → Option Nat) (s : DynState) : Prop :=
  (∀ pu ∈ d.partition_updates, s.parts pu.1 = pv pu) ∧
  (∀ q, (∀ pu ∈ d.partition_updates, q ≠ pu.1) → s.parts q = none) ∧
  (∀ ge ∈ d.group_updates, s.groups ge.1 = gv ge) ∧
  (∀ h, (∀ ge ∈ d.group_updates, h ≠ ge.1) → s.groups h = none)

end Common

namespace Common

/-- C2: for an incremental `BlockDifference` with a non-empty check range,
the failure branch of `WriteVerifyScript` at protocol version exactly 3
aborts with the verification-failure code (`SYSTEM_VERIFICATION_FAILURE`
for partition `system`, `VENDOR_VERIFICATION_FAILURE` otherwise) and emits
no `block_image_recover` call, while at version >= 4 it emits
`block_image_recover` followed by re-verification, aborting with the
recover-failure code, and emits no verification-failure abort. -/
theorem claim_C2_verify_version_dispatch (bd : BlockDifference)
    (srcImg : Image) (tbo : Bool) (hsrc : bd.src = some srcImg)
    (hne : (if tbo then bd.touched_src_ranges
        else srcImg.care_map.subtract srcImg.clobbered_blocks).isEmpty
        = false) :
    (bd.version = 3 →
      ScriptItem.appendExtra (.abortUnexpectedContentsEndif
          (if bd.partition = "system" then
            ErrorCode.SYSTEM_VERIFICATION_FAILURE
          else ErrorCode.VENDOR_VERIFICATION_FAILURE) bd.partition)
        ∈ bd.WriteVerifyScript tbo ∧
      ∀ item ∈ bd.WriteVerifyScript tbo,
        ¬ item.mentionsBlockImageRecover) ∧
    (4 ≤ bd.version →
      ScriptItem.appendExtra (.recoverVerifyOrAbortEndif bd.device
          (if tbo then bd.touched_src_ranges
           else srcImg.care_map.subtract srcImg.clobbered_blocks)
          bd.partition
          (if bd.partition = "system" then ErrorCode.SYSTEM_RECOVER_FAILURE
           else ErrorCode.VENDOR_RECOVER_FAILURE))
        ∈ bd.WriteVerifyScript tbo ∧
      ∀ code p, ScriptItem.appendExtra
          (.abortUnexpectedContentsEndif code p)
        ∉ bd.WriteVerifyScript tbo) := by
  constructor
  · intro h3
    have hv : ¬ (4 ≤ bd.version) := by omega
    have hout : bd.WriteVerifyScript tbo =
        [.appendExtra (.ifRangeSha1OrBlockImageVerify bd.device
            (if tbo then bd.touched_src_ranges
             else srcImg.care_map.subtract srcImg.clobbered_blocks)
            (if tbo then bd.touched_src_sha1 else srcImg.TotalSha1 false)
            bd.partition),
         .print ("Verified " ++ bd.partition ++ " image..."),
         .appendExtra .elseBranch,
         .appendExtra (.abortUnexpectedContentsEndif
            (if bd.partition = "system" then
              ErrorCode.SYSTEM_VERIFICATION_FAILURE
            else ErrorCode.VENDOR_VERIFICATION_FAILURE) bd.partition)] := by
      simp [BlockDifference.WriteVerifyScript, hsrc, hne, hv]
    rw [hout]
    refine ⟨by simp, ?_⟩
    intro item him
    simp only [List.mem_cons, List.not_mem_nil, or_false] at him
    rcases him with h | h | h | h <;> subst h <;>
      simp [ScriptItem.mentionsBlockImageRecover]
  · intro h4
    have hout : bd.WriteVerifyScript tbo =
        [.appendExtra (.ifRangeSha1OrBlockImageVerify bd.device
            (if tbo then bd.touched_src_ranges
             else srcImg.care_map.subtract srcImg.clobbered_blocks)
            (if tbo then bd.touched_src_sha1 else srcImg.TotalSha1 false)
            bd.partition),
         .print ("Verified " ++ bd.partition ++ " image..."),
         .appendExtra .elseBranch] ++
        (if bd.check_first_block then
          [.appendExtra (.checkFirstBlock bd.device)] else []) ++
        [.appendExtra (.recoverVerifyOrAbortEndif bd.device
            (if tbo then bd.touched_src_ranges
             else srcImg.care_map.subtract srcImg.clobbered_blocks)
            bd.partition
            (if bd.partition = "system" then ErrorCode.SYSTEM_RECOVER_FAILURE
             else ErrorCode.VENDOR_RECOVER_FAILURE))] := by
      simp [BlockDifference.WriteVerifyScript, hsrc, hne, h4]
    rw [hout]
    constructor
    · simp
    · intro code p him
      by_cases hc : bd.check_first_block <;> simp [hc] at him

/-- C7: `WritePostInstallVerifyScript` always emits a hash check over the
full target care map with clobbered blocks included in the expected hash;
the extended region is verified to hash as all-zero blocks, with a failure
abort carrying the `NONZERO_CONTENTS` code, exactly when the extended
region is non-empty; and that code differs from the `UNEXPECTED_CONTENTS`
code used for the care-map mismatch abort. -/
theorem claim_C7_post_install_verify (bd : BlockDifference) :
    ScriptItem.appendExtra (.ifRangeSha1Then bd.device bd.tgt.care_map
        (bd.tgt.TotalSha1 true)) ∈ bd.WritePostInstallVerifyScript ∧
    (bd.tgt.extended.isEmpty = false →
      ScriptItem.appendExtra (.ifRangeSha1Then bd.device bd.tgt.extended
          (HashZeroBlocks bd.tgt.extended.size))
        ∈ bd.WritePostInstallVerifyScript) ∧
    (bd.tgt.extended.isEmpty = false ↔
      ScriptItem.appendExtra (.elseAbortNonzeroEndif
          (if bd.partition = "system" then ErrorCode.SYSTEM_NONZERO_CONTENTS
           else ErrorCode.VENDOR_NONZERO_CONTENTS) bd.partition)
        ∈ bd.WritePostInstallVerifyScript) ∧
    ScriptItem.appendExtra (.elseAbortUnexpectedEndif
        (if bd.partition = "system" then ErrorCode.SYSTEM_UNEXPECTED_CONTENTS
         else ErrorCode.VENDOR_UNEXPECTED_CONTENTS) bd.partition)
      ∈ bd.WritePostInstallVerifyScript ∧
    (if bd.partition = "system" then ErrorCode.SYSTEM_NONZERO_CONTENTS
     else ErrorCode.VENDOR_NONZERO_CONTENTS) ≠
    (if bd.partition = "system" then ErrorCode.SYSTEM_UNEXPECTED_CONTENTS
     else ErrorCode.VENDOR_UNEXPECTED_CONTENTS) := by
  by_cases hext : bd.tgt.extended.isEmpty
  · refine ⟨?_, ?_, ?_, ?_, ?_⟩
    · simp [BlockDifference.WritePostInstallVerifyScript, hext]
    · intro h; rw [hext] at h; exact absurd h (by simp)
    · constructor
      · intro h; rw [hext] at h; exact absurd h (by simp)
      · intro hmem
        exfalso
        simp [BlockDifference.WritePostInstallVerifyScript, hext] at hmem
    · simp [BlockDifference.WritePostInstallVerifyScript, hext]
    · by_cases hp : bd.partition = "system" <;>
        simp [hp, ErrorCode.SYSTEM_NONZERO_CONTENTS,
          ErrorCode.SYSTEM_UNEXPECTED_CONTENTS,
          ErrorCode.VENDOR_NONZERO_CONTENTS,
          ErrorCode.VENDOR_UNEXPECTED_CONTENTS]
  · have hext' : bd.tgt.extended.isEmpty = false := by
      simpa using hext
    refine ⟨?_, ?_, ?_, ?_, ?_⟩
    · simp [BlockDifference.WritePostInstallVerifyScript, hext']
    · intro _; simp [BlockDifference.WritePostInstallVerifyScript, hext']
    · constructor
      · intro _; simp [BlockDifference.WritePostInstallVerifyScript, hext']
      · intro _; exact hext'
    · simp [BlockDifference.WritePostInstallVerifyScript, hext']
    · by_cases hp : bd.partition = "system" <;>
        simp [hp, ErrorCode.SYSTEM_NONZERO_CONTENTS,
          ErrorCode.SYSTEM_UNEXPECTED_CONTENTS,
          ErrorCode.VENDOR_NONZERO_CONTENTS,
          ErrorCode.VENDOR_UNEXPECTED_CONTENTS]

/-- C9: every abort error code emitted by the `BlockDifference` script
generators (`WriteVerifyScript`, `WritePostInstallVerifyScript`,
`_WriteUpdate`) is selected by the single two-way test on the partition
name: partition `system` gets the `SYSTEM_*` code of the failure class,
and every other partition gets the `VENDOR_*` code. -/
theorem codes_of_WriteVerifyScript (bd : BlockDifference) (tbo : Bool)
    (item : ScriptItem) (h : item ∈ bd.WriteVerifyScript tbo) :
    item.emittedCode = none ∨
      ∃ k, item.emittedCode = some (partitionCode bd.partition k) := by
  unfold BlockDifference.WriteVerifyScript at h
  rcases hs : bd.src with _ | srcImg <;> rw [hs] at h
  · simp only [List.mem_singleton] at h
    subst h
    exact Or.inl rfl
  · simp only at h
    by_cases hr : (if tbo then bd.touched_src_ranges
        else srcImg.care_map.subtract srcImg.clobbered_blocks).isEmpty
    · rw [if_pos hr] at h
      simp at h
    · rw [if_neg hr] at h
      by_cases h4 : bd.version ≥ 4
      · rw [if_pos h4] at h
        by_cases hc4 : bd.check_first_block = true
        · rw [if_pos hc4] at h
          simp only [List.cons_append, List.nil_append] at h
          fin_cases h
          all_goals first
            | exact Or.inl rfl
            | exact Or.inr ⟨.recover, rfl⟩
        · rw [if_neg hc4] at h
          simp only [List.cons_append, List.nil_append] at h
          fin_cases h
          all_goals first
            | exact Or.inl rfl
            | exact Or.inr ⟨.recover, rfl⟩
      · rw [if_neg h4] at h
        simp only [List.cons_append, List.nil_append] at h
        fin_cases h
        all_goals first
          | exact Or.inl rfl
          | exact Or.inr ⟨.verification, rfl⟩

theorem codes_of_WritePostInstallVerifyScript (bd : BlockDifference)
    (item : ScriptItem) (h : item ∈ bd.WritePostInstallVerifyScript) :
    item.emittedCode = none ∨
      ∃ k, item.emittedCode = some (partitionCode bd.partition k) := by
  unfold BlockDifference.WritePostInstallVerifyScript at h
  by_cases hext : bd.tgt.extended.isEmpty
  · simp only [hext, Bool.not_true, if_false, List.cons_append,
      List.nil_append] at h
    fin_cases h
    all_goals first
      | exact Or.inl rfl
      | exact Or.inr ⟨.unexpected, rfl⟩
  · have hext' : bd.tgt.extended.isEmpty = false := by simpa using hext
    simp only [hext', Bool.not_false, if_true, List.cons_append,
      List.nil_append] at h
    fin_cases h
    all_goals first
      | exact Or.inl rfl
      | exact Or.inr ⟨.nonzero, rfl⟩
      | exact Or.inr ⟨.unexpected, rfl⟩

theorem codes_of_WriteUpdateScript (bd : BlockDifference)
    (item : ScriptItem) (h : item ∈ bd.WriteUpdateScript) :
    item.emittedCode = none ∨
      ∃ k, item.emittedCode = some (partitionCode bd.partition k) := by
  unfold BlockDifference.WriteUpdateScript at h
  rcases hs : bd.src with _ | srcImg <;> rw [hs] at h <;>
    simp only [List.mem_singleton] at h <;> subst h <;>
    exact Or.inr ⟨.update, rfl⟩

theorem claim_C9_two_way_codes (bd : BlockDifference) (tbo : Bool)
    (item : ScriptItem) (c : Nat)
    (him : item ∈ bd.WriteVerifyScript tbo ++
      bd.WritePostInstallVerifyScript ++ bd.WriteUpdateScript)
    (hcode : item.emittedCode = some c) :
    ∃ k : CodeKind, c = partitionCode bd.partition k := by
  have key : item.emittedCode = none ∨
      ∃ k, item.emittedCode = some (partitionCode bd.partition k) := by
    rcases List.mem_append.mp him with him | him
    · rcases List.mem_append.mp him with him | him
      · exact codes_of_WriteVerifyScript bd tbo item him
      · exact codes_of_WritePostInstallVerifyScript bd item him
    · exact codes_of_WriteUpdateScript bd item him
  rcases key with hnone | ⟨k, hk⟩
  · rw [hnone] at hcode
    exact absurd hcode (by simp)
  · rw [hk] at hcode
    exact ⟨k, (Option.some_injective _ hcode).symm⟩

/-- C10: for an incremental `BlockDifference`, when the range of blocks to
check is empty (the touched source ranges when `touched_blocks_only`,
otherwise the source care map minus clobbered blocks), `WriteVerifyScript`
returns without emitting anything to the script sink. -/
theorem claim_C10_empty_check_no_emission (bd : BlockDifference)
    (srcImg : Image) (tbo : Bool) (hsrc : bd.src = some srcImg)
    (hempty : (if tbo then bd.touched_src_ranges
        else srcImg.care_map.subtract srcImg.clobbered_blocks).isEmpty
        = true) :
    bd.WriteVerifyScript tbo = [] := by
  simp [BlockDifference.WriteVerifyScript, hsrc, hempty]

/-- Witness for C2: the version-3 incremental difference `exBd3` on
partition `system` with a non-empty check range aborts with
`SYSTEM_VERIFICATION_FAILURE` and never emits `block_image_recover`. -/
theorem claim_C2_witness :
    exBd3.src = some exSrcImage ∧
    (exSrcImage.care_map.subtract exSrcImage.clobbered_blocks).isEmpty
      = false ∧
    (ScriptItem.appendExtra (.abortUnexpectedContentsEndif
        ErrorCode.SYSTEM_VERIFICATION_FAILURE "system")
      ∈ exBd3.WriteVerifyScript false ∧
     ∀ item ∈ exBd3.WriteVerifyScript false,
       ¬ item.mentionsBlockImageRecover) := by
  refine ⟨rfl, by decide, ?_⟩
  have h := claim_C2_verify_version_dispatch exBd3 exSrcImage false rfl
    (by decide)
  have h3 := h.1 rfl
  simpa [exBd3] using h3

/-- Witness for C9: the `block_image_update` abort code emitted for
`exBd3` (partition `system`) is a `SYSTEM_*` code of one of the failure
classes. -/
theorem claim_C9_witness :
    ((ScriptItem.appendExtra (.blockImageUpdateOrAbort "dev" "system"
        "system.new.dat" ErrorCode.SYSTEM_UPDATE_FAILURE))
      ∈ exBd3.WriteVerifyScript false ++ exBd3.WritePostInstallVerifyScript
        ++ exBd3.WriteUpdateScript) ∧
    ∃ k : CodeKind,
      ErrorCode.SYSTEM_UPDATE_FAILURE = partitionCode "system" k := by
  refine ⟨by decide, ?_⟩
  have h := claim_C9_two_way_codes exBd3 false
    (.appendExtra (.blockImageUpdateOrAbort "dev" "system" "system.new.dat"
      ErrorCode.SYSTEM_UPDATE_FAILURE))
    ErrorCode.SYSTEM_UPDATE_FAILURE (by decide) (by decide)
  exact h

/-- Witness for C10: `exBdEmptyCheck` has a source image whose check range
is empty, and its pre-install verify script is empty. -/
theorem claim_C10_witness :
    exBdEmptyCheck.src = some exSrcImageFullyClobbered ∧
    (exSrcImageFullyClobbered.care_map.subtract
        exSrcImageFullyClobbered.clobbered_blocks).isEmpty = true ∧
    exBdEmptyCheck.WriteVerifyScript false = [] :=
  ⟨rfl, by decide,
    claim_C10_empty_check_no_emission exBdEmptyCheck
      exSrcImageFullyClobbered false rfl (by decide)⟩

end Common

namespace Common

/-! ## Pointwise replay lemmas -/

theorem applyOp_parts (s : DynState) (op : Op) (p : String) :
    (applyOp s op).parts p = partStep p (s.parts p) op := by
  cases op <;> simp only [applyOp, partStep] <;>
    (try split_ifs with h) <;> (try subst h) <;> rfl

theorem applyOp_groups (s : DynState) (op : Op) (g : String) :
    (applyOp s op).groups g = groupStep g (s.groups g) op := by
  cases op <;> simp only [applyOp, groupStep] <;>
    (try split_ifs with h) <;> (try subst h) <;> rfl

theorem replay_parts (ops : List Op) (s : DynState) (p : String) :
    (replay s ops).parts p = ops.foldl (partStep p) (s.parts p) := by
  induction ops generalizing s with
  | nil => rfl
  | cons op rest ih =>
      show (replay (applyOp s op) rest).parts p = _
      rw [ih (applyOp s op), List.foldl_cons, applyOp_parts]

theorem replay_groups (ops : List Op) (s : DynState) (g : String) :
    (replay s ops).groups g = ops.foldl (groupStep g) (s.groups g) := by
  induction ops generalizing s with
  | nil => rfl
  | cons op rest ih =>
      show (replay (applyOp s op) rest).groups g = _
      rw [ih (applyOp s op), List.foldl_cons, applyOp_groups]

theorem replay_append (s : DynState) (a b : List Op) :
    replay s (a ++ b) = replay (replay s a) b := by
  simp [replay, List.foldl_append]

theorem partStep_of_ne {p q : String} (h : q ≠ p) {op : Op}
    (hl : PartLocal p op) (v : Option (String × Nat)) :
    partStep q v op = v := by
  cases op <;> simp_all [partStep, PartLocal]

theorem groupStep_of_partLocal {p : String} {op : Op}
    (hl : PartLocal p op) (g : String) (c : Option Nat) :
    groupStep g c op = c := by
  cases op <;> simp_all [groupStep, PartLocal]

theorem partStep_of_groupLocal {g : String} {op : Op}
    (hl : GroupLocal g op) (p : String) (v : Option (String × Nat)) :
    partStep p v op = v := by
  cases op <;> simp_all [partStep, GroupLocal]

theorem groupStep_of_ne {g h' : String} (h : h' ≠ g) {op : Op}
    (hl : GroupLocal g op) (c : Option Nat) :
    groupStep h' c op = c := by
  cases op <;> simp_all [groupStep, GroupLocal]

theorem foldl_partStep_id (q : String) (l : List Op)
    (h : ∀ op ∈ l, ∀ w, partStep q w op = w) (v : Option (String × Nat)) :
    l.foldl (partStep q) v = v := by
  induction l generalizing v with
  | nil => rfl
  | cons op rest ih =>
      rw [List.foldl_cons, h op (List.mem_cons_self op rest)]
      exact ih (fun o ho w => h o (List.mem_cons_of_mem op ho) w) v

theorem foldl_groupStep_id (g : String) (l : List Op)
    (h : ∀ op ∈ l, ∀ w, groupStep g w op = w) (c : Option Nat) :
    l.foldl (groupStep g) c = c := by
  induction l generalizing c with
  | nil => rfl
  | cons op rest ih =>
      rw [List.foldl_cons, h op (List.mem_cons_self op rest)]
      exact ih (fun o ho w => h o (List.mem_cons_of_mem op ho) w) c

/-! ## Generic phase-execution lemmas -/

theorem bindPartPhase_mid
    (f : String × DynamicPartitionUpdate → List Op)
    (pre post : String × DynamicPartitionUpdate → Option (String × Nat))
    (hf : ∀ pu, ∀ op ∈ f pu, PartLocal pu.1 op)
    (hpre : ∀ pu, ∀ n,
      ((f pu).take n).foldl (partStep pu.1) (pre pu) = pre pu ∨
      ((f pu).take n).foldl (partStep pu.1) (pre pu) = post pu)
    (entries : List (String × DynamicPartitionUpdate)) :
    ∀ (s : DynState), (entries.map Prod.fst).Nodup →
      (∀ pu ∈ entries, s.parts pu.1 = pre pu) →
      ∀ n,
        ((replay s ((entries.flatMap f).take n)).groups = s.groups) ∧
        (∀ q, (∀ pu ∈ entries, q ≠ pu.1) →
          (replay s ((entries.flatMap f).take n)).parts q = s.parts q) ∧
        (∀ pu ∈ entries,
          (replay s ((entries.flatMap f).take n)).parts pu.1 = pre pu ∨
          (replay s ((entries.flatMap f).take n)).parts pu.1 = post pu) := by
  induction entries with
  | nil =>
      intro s _ _ n
      simp only [List.flatMap_nil, List.take_nil]
      exact ⟨rfl, fun q _ => rfl, fun pu hpu => absurd hpu (by simp)⟩
  | cons e rest ih =>
      intro s hnd hs n
      have hkne : e.1 ∉ rest.map Prod.fst := (List.nodup_cons.mp hnd).1
      have hknd : (rest.map Prod.fst).Nodup := (List.nodup_cons.mp hnd).2
      have hdec : ((e :: rest).flatMap f).take n =
          (f e).take n ++ (rest.flatMap f).take (n - (f e).length) := by
        rw [List.flatMap_cons, List.take_append_eq_append_take]
      rw [hdec, replay_append]
      set s1 := replay s ((f e).take n) with hs1
      have hsub : ∀ op ∈ (f e).take n, PartLocal e.1 op := by
        intro op hop
        exact hf e op (List.take_subset n (f e) hop)
      have hs1groups : s1.groups = s.groups := by
        funext g
        rw [hs1, replay_groups]
        exact foldl_groupStep_id g _
          (fun op hop w => groupStep_of_partLocal (hsub op hop) g w) _
      have hs1other : ∀ q, q ≠ e.1 → s1.parts q = s.parts q := by
        intro q hq
        rw [hs1, replay_parts]
        exact foldl_partStep_id q _
          (fun op hop w => partStep_of_ne hq (hsub op hop) w) _
      have hs1e : s1.parts e.1 = pre e ∨ s1.parts e.1 = post e := by
        rw [hs1, replay_parts, hs e (List.mem_cons_self e rest)]
        exact hpre e n
      have hrest : ∀ pu ∈ rest, s1.parts pu.1 = pre pu := by
        intro pu hpu
        have hne : pu.1 ≠ e.1 := by
          intro hcontra
          exact hkne (hcontra ▸ List.mem_map_of_mem Prod.fst hpu)
        rw [hs1other pu.1 hne]
        exact hs pu (List.mem_cons_of_mem e hpu)
      obtain ⟨ihg, ihother, ihmem⟩ :=
        ih s1 hknd hrest (n - (f e).length)
      refine ⟨?_, ?_, ?_⟩
      · rw [ihg, hs1groups]
      · intro q hq
        rw [ihother q (fun pu hpu => hq pu (List.mem_cons_of_mem e hpu)),
          hs1other q (hq e (List.mem_cons_self e rest))]
      · intro pu hpu
        rcases List.mem_cons.mp hpu with heq | hmem
        · rw [heq]
          have he1 : ∀ qu ∈ rest, e.1 ≠ qu.1 := by
            intro qu hqu hcontra
            exact hkne (hcontra ▸ List.mem_map_of_mem Prod.fst hqu)
          rw [ihother e.1 he1]
          exact hs1e
        · exact ihmem pu hmem

theorem bindPartPhase_final
    (f : String × DynamicPartitionUpdate → List Op)
    (pre post : String × DynamicPartitionUpdate → Option (String × Nat))
    (hf : ∀ pu, ∀ op ∈ f pu, PartLocal pu.1 op)
    (hpost : ∀ pu, (f pu).foldl (partStep pu.1) (pre pu) = post pu)
    (entries : List (String × DynamicPartitionUpdate)) :
    ∀ (s : DynState), (entries.map Prod.fst).Nodup →
      (∀ pu ∈ entries, s.parts pu.1 = pre pu) →
      ((replay s (entries.flatMap f)).groups = s.groups) ∧
      (∀ q, (∀ pu ∈ entries, q ≠ pu.1) →
        (replay s (entries.flatMap f)).parts q = s.parts q) ∧
      (∀ pu ∈ entries,
        (replay s (entries.flatMap f)).parts pu.1 = post pu) := by
  induction entries with
  | nil =>
      intro s _ _
      simp only [List.flatMap_nil]
      exact ⟨rfl, fun q _ => rfl, fun pu hpu => absurd hpu (by simp)⟩
  | cons e rest ih =>
      intro s hnd hs
      have hkne : e.1 ∉ rest.map Prod.fst := (List.nodup_cons.mp hnd).1
      have hknd : (rest.map Prod.fst).Nodup := (List.nodup_cons.mp hnd).2
      rw [List.flatMap_cons, replay_append]
      set s1 := replay s (f e) with hs1
      have hs1groups : s1.groups = s.groups := by
        funext g
        rw [hs1, replay_groups]
        exact foldl_groupStep_id g _
          (fun op hop w => groupStep_of_partLocal (hf e op hop) g w) _
      have hs1other : ∀ q, q ≠ e.1 → s1.parts q = s.parts q := by
        intro q hq
        rw [hs1, replay_parts]
        exact foldl_partStep_id q _
          (fun op hop w => partStep_of_ne hq (hf e op hop) w) _
      have hs1e : s1.parts e.1 = post e := by
        rw [hs1, replay_parts, hs e (List.mem_cons_self e rest)]
        exact hpost e
      have hrest : ∀ pu ∈ rest, s1.parts pu.1 = pre pu := by
        intro pu hpu
        have hne : pu.1 ≠ e.1 := by
          intro hcontra
          exact hkne (hcontra ▸ List.mem_map_of_mem Prod.fst hpu)
        rw [hs1other pu.1 hne]
        exact hs pu (List.mem_cons_of_mem e hpu)
      obtain ⟨ihg, ihother, ihval⟩ := ih s1 hknd hrest
      refine ⟨?_, ?_, ?_⟩
      · rw [ihg, hs1groups]
      · intro q hq
        rw [ihother q (fun pu hpu => hq pu (List.mem_cons_of_mem e hpu)),
          hs1other q (hq e (List.mem_cons_self e rest))]
      · intro pu hpu
        rcases List.mem_cons.mp hpu with heq | hmem
        · rw [heq]
          have he1 : ∀ qu ∈ rest, e.1 ≠ qu.1 := by
            intro qu hqu hcontra
            exact hkne (hcontra ▸ List.mem_map_of_mem Prod.fst hqu)
          rw [ihother e.1 he1]
          exact hs1e
        · exact ihval pu hmem

end Common

namespace Common

theorem bindGroupPhase_mid
    (f : String × DynamicGroupUpdate → List Op)
    (pre post : String × DynamicGroupUpdate → Option Nat)
    (hf : ∀ ge, ∀ op ∈ f ge, GroupLocal ge.1 op)
    (hpre : ∀ ge, ∀ n,
      ((f ge).take n).foldl (groupStep ge.1) (pre ge) = pre ge ∨
      ((f ge).take n).foldl (groupStep ge.1) (pre ge) = post ge)
    (entries : List (String × DynamicGroupUpdate)) :
    ∀ (s : DynState), (entries.map Prod.fst).Nodup →
      (∀ ge ∈ entries, s.groups ge.1 = pre ge) →
      ∀ n,
        ((replay s ((entries.flatMap f).take n)).parts = s.parts) ∧
        (∀ h, (∀ ge ∈ entries, h ≠ ge.1) →
          (replay s ((entries.flatMap f).take n)).groups h = s.groups h) ∧
        (∀ ge ∈ entries,
          (replay s ((entries.flatMap f).take n)).groups ge.1 = pre ge ∨
          (replay s ((entries.flatMap f).take n)).groups ge.1 = post ge) := by
  induction entries with
  | nil =>
      intro s _ _ n
      simp only [List.flatMap_nil, List.take_nil]
      exact ⟨rfl, fun q _ => rfl, fun ge hge => absurd hge (by simp)⟩
  | cons e rest ih =>
      intro s hnd hs n
      have hkne : e.1 ∉ rest.map Prod.fst := (List.nodup_cons.mp hnd).1
      have hknd : (rest.map Prod.fst).Nodup := (List.nodup_cons.mp hnd).2
      have hdec : ((e :: rest).flatMap f).take n =
          (f e).take n ++ (rest.flatMap f).take (n - (f e).length) := by
        rw [List.flatMap_cons, List.take_append_eq_append_take]
      rw [hdec, replay_append]
      set s1 := replay s ((f e).take n) with hs1
      have hsub : ∀ op ∈ (f e).take n, GroupLocal e.1 op := by
        intro op hop
        exact hf e op (List.take_subset n (f e) hop)
      have hs1parts : s1.parts = s.parts := by
        funext p
        rw [hs1, replay_parts]
        exact foldl_partStep_id p _
          (fun op hop w => partStep_of_groupLocal (hsub op hop) p w) _
      have hs1other : ∀ h, h ≠ e.1 → s1.groups h = s.groups h := by
        intro h hq
        rw [hs1, replay_groups]
        exact foldl_groupStep_id h _
          (fun op hop w => groupStep_of_ne hq (hsub op hop) w) _
      have hs1e : s1.groups e.1 = pre e ∨ s1.groups e.1 = post e := by
        rw [hs1, replay_groups, hs e (List.mem_cons_self e rest)]
        exact hpre e n
      have hrest : ∀ ge ∈ rest, s1.groups ge.1 = pre ge := by
        intro ge hge
        have hne : ge.1 ≠ e.1 := by
          intro hcontra
          exact hkne (hcontra ▸ List.mem_map_of_mem Prod.fst hge)
        rw [hs1other ge.1 hne]
        exact hs ge (List.mem_cons_of_mem e hge)
      obtain ⟨ihp, ihother, ihmem⟩ :=
        ih s1 hknd hrest (n - (f e).length)
      refine ⟨?_, ?_, ?_⟩
      · rw [ihp, hs1parts]
      · intro h hq
        rw [ihother h (fun ge hge => hq ge (List.mem_cons_of_mem e hge)),
          hs1other h (hq e (List.mem_cons_self e rest))]
      · intro ge hge
        rcases List.mem_cons.mp hge with heq | hmem
        · rw [heq]
          have he1 : ∀ qu ∈ rest, e.1 ≠ qu.1 := by
            intro qu hqu hcontra
            exact hkne (hcontra ▸ List.mem_map_of_mem Prod.fst hqu)
          rw [ihother e.1 he1]
          exact hs1e
        · exact ihmem ge hmem

theorem bindGroupPhase_final
    (f : String × DynamicGroupUpdate → List Op)
    (pre post : String × DynamicGroupUpdate → Option Nat)
    (hf : ∀ ge, ∀ op ∈ f ge, GroupLocal ge.1 op)
    (hpost : ∀ ge, (f ge).foldl (groupStep ge.1) (pre ge) = post ge)
    (entries : List (String × DynamicGroupUpdate)) :
    ∀ (s : DynState), (entries.map Prod.fst).Nodup →
      (∀ ge ∈ entries, s.groups ge.1 = pre ge) →
      ((replay s (entries.flatMap f)).parts = s.parts) ∧
      (∀ h, (∀ ge ∈ entries, h ≠ ge.1) →
        (replay s (entries.flatMap f)).groups h = s.groups h) ∧
      (∀ ge ∈ entries,
        (replay s (entries.flatMap f)).groups ge.1 = post ge) := by
  induction entries with
  | nil =>
      intro s _ _
      simp only [List.flatMap_nil]
      exact ⟨rfl, fun q _ => rfl, fun ge hge => absurd hge (by simp)⟩
  | cons e rest ih =>
      intro s hnd hs
      have hkne : e.1 ∉ rest.map Prod.fst := (List.nodup_cons.mp hnd).1
      have hknd : (rest.map Prod.fst).Nodup := (List.nodup_cons.mp hnd).2
      rw [List.flatMap_cons, replay_append]
      set s1 := replay s (f e) with hs1
      have hs1parts : s1.parts = s.parts := by
        funext p
        rw [hs1, replay_parts]
        exact foldl_partStep_id p _
          (fun op hop w => partStep_of_groupLocal (hf e op hop) p w) _
      have hs1other : ∀ h, h ≠ e.1 → s1.groups h = s.groups h := by
        intro h hq
        rw [hs1, replay_groups]
        exact foldl_groupStep_id h _
          (fun op hop w => groupStep_of_ne hq (hf e op hop) w) _
      have hs1e : s1.groups e.1 = post e := by
        rw [hs1, replay_groups, hs e (List.mem_cons_self e rest)]
        exact hpost e
      have hrest : ∀ ge ∈ rest, s1.groups ge.1 = pre ge := by
        intro ge hge
        have hne : ge.1 ≠ e.1 := by
          intro hcontra
          exact hkne (hcontra ▸ List.mem_map_of_mem Prod.fst hge)
        rw [hs1other ge.1 hne]
        exact hs ge (List.mem_cons_of_mem e hge)
      obtain ⟨ihp, ihother, ihval⟩ := ih s1 hknd hrest
      refine ⟨?_, ?_, ?_⟩
      · rw [ihp, hs1parts]
      · intro h hq
        rw [ihother h (fun ge hge => hq ge (List.mem_cons_of_mem e hge)),
          hs1other h (hq e (List.mem_cons_self e rest))]
      · intro ge hge
        rcases List.mem_cons.mp hge with heq | hmem
        · rw [heq]
          have he1 : ∀ qu ∈ rest, e.1 ≠ qu.1 := by
            intro qu hqu hcontra
            exact hkne (hcontra ▸ List.mem_map_of_mem Prod.fst hqu)
          rw [ihother e.1 he1]
          exact hs1e
        · exact ihval ge hmem

end Common

namespace Common

/-! ## Fold-over-take helpers for the short per-entry op lists -/

theorem foldl_take_one {γ : Type} (step : γ → Op → γ) (v : γ) (a : Op)
    (n : Nat) :
    (([a].take n).foldl step v = v) ∨
    (([a].take n).foldl step v = step v a) := by
  match n with
  | 0 => exact Or.inl rfl
  | k + 1 => exact Or.inr (by simp)

theorem foldl_take_two {γ : Type} (step : γ → Op → γ) (v : γ) (a b : Op)
    (n : Nat) :
    (([a, b].take n).foldl step v = v) ∨
    (([a, b].take n).foldl step v = step v a) ∨
    (([a, b].take n).foldl step v = step (step v a) b) := by
  match n with
  | 0 => exact Or.inl rfl
  | 1 => exact Or.inr (Or.inl rfl)
  | k + 2 => exact Or.inr (Or.inr (by simp))

/-- Every per-entry op list of `_Compute` is empty, a single operation, or
a comment followed by one operation; for such lists every prefix folds to
the pre- or the post-value. -/
theorem foldl_take_pre_post {γ : Type} (step : γ → Op → γ) (pre post : γ)
    (ops : List Op) (hpost : ops.foldl step pre = post)
    (hshape : ops = [] ∨ (∃ a, ops = [a]) ∨
      (∃ t b, ops = [Op.comment t, b] ∧
        step pre (Op.comment t) = pre)) (n : Nat) :
    ((ops.take n).foldl step pre = pre) ∨
    ((ops.take n).foldl step pre = post) := by
  rcases hshape with h | ⟨a, h⟩ | ⟨t, b, h, hc⟩
  · subst h
    left
    cases n <;> rfl
  · subst h
    rcases foldl_take_one step pre a n with h1 | h1
    · exact Or.inl h1
    · exact Or.inr (h1.trans hpost)
  · subst h
    rcases foldl_take_two step pre (Op.comment t) b n with h1 | h1 | h1
    · exact Or.inl h1
    · rw [h1, hc]
      exact Or.inl rfl
    · exact Or.inr (h1.trans hpost)

/-! ## Phase 3: removals (lines 2609-2611) -/

theorem removePartOps_local (pu : String × DynamicPartitionUpdate) :
    ∀ op ∈ removePartOps pu, PartLocal pu.1 op := by
  obtain ⟨p, sg, tg, ss, ts⟩ := pu
  intro op hop
  rcases sg with _ | gs <;> rcases tg with _ | gt <;>
    simp [removePartOps] at hop <;>
    simp_all [PartLocal]

theorem removePartOps_shape (pu : String × DynamicPartitionUpdate) :
    removePartOps pu = [] ∨ (∃ a, removePartOps pu = [a]) ∨
    (∃ t b, removePartOps pu = [Op.comment t, b] ∧
      partStep pu.1 (pval0 pu) (Op.comment t) = pval0 pu) := by
  obtain ⟨p, sg, tg, ss, ts⟩ := pu
  rcases sg with _ | gs <;> rcases tg with _ | gt <;>
    simp [removePartOps]

theorem removePartOps_post (pu : String × DynamicPartitionUpdate) :
    (removePartOps pu).foldl (partStep pu.1) (pval0 pu) = pval3 pu := by
  obtain ⟨p, sg, tg, ss, ts⟩ := pu
  rcases sg with _ | gs <;> rcases tg with _ | gt <;>
    simp [removePartOps, pval0, pval3, partStep]

/-! ## Phase 4: moves to the `default` holding group (lines 2613-2616) -/

theorem moveDefaultOps_local (pu : String × DynamicPartitionUpdate) :
    ∀ op ∈ moveDefaultOps pu, PartLocal pu.1 op := by
  obtain ⟨p, sg, tg, ss, ts⟩ := pu
  intro op hop
  rcases sg with _ | gs <;> rcases tg with _ | gt <;>
    simp [moveDefaultOps] at hop
  by_cases hgg : gs = gt <;> simp [hgg] at hop <;>
    rcases hop with h | h <;> simp_all [PartLocal]

theorem moveDefaultOps_shape (pu : String × DynamicPartitionUpdate) :
    moveDefaultOps pu = [] ∨ (∃ a, moveDefaultOps pu = [a]) ∨
    (∃ t b, moveDefaultOps pu = [Op.comment t, b] ∧
      partStep pu.1 (pval3 pu) (Op.comment t) = pval3 pu) := by
  obtain ⟨p, sg, tg, ss, ts⟩ := pu
  rcases sg with _ | gs <;> rcases tg with _ | gt <;>
    simp [moveDefaultOps]
  by_cases hgg : gs = gt <;> simp [hgg, partStep]

theorem moveDefaultOps_post (pu : String × DynamicPartitionUpdate) :
    (moveDefaultOps pu).foldl (partStep pu.1) (pval3 pu) = pval4 pu := by
  obtain ⟨p, sg, tg, ss, ts⟩ := pu
  rcases sg with _ | gs <;> rcases tg with _ | gt <;>
    simp [moveDefaultOps, pval3, pval4, partStep]
  by_cases hgg : gs = gt <;> simp [hgg, partStep]

/-! ## Phase 5: partition shrinks (lines 2618-2622) -/

theorem shrinkPartOps_local (pu : String × DynamicPartitionUpdate) :
    ∀ op ∈ shrinkPartOps pu, PartLocal pu.1 op := by
  obtain ⟨p, sg, tg, ss, ts⟩ := pu
  intro op hop
  by_cases hg : ss ≠ 0 ∧ ts ≠ 0 ∧ ss > ts <;>
    simp [shrinkPartOps, hg] at hop <;>
    rcases hop with h | h <;> simp_all [PartLocal]

theorem shrinkPartOps_shape (pu : String × DynamicPartitionUpdate) :
    shrinkPartOps pu = [] ∨ (∃ a, shrinkPartOps pu = [a]) ∨
    (∃ t b, shrinkPartOps pu = [Op.comment t, b] ∧
      partStep pu.1 (pval4 pu) (Op.comment t) = pval4 pu) := by
  obtain ⟨p, sg, tg, ss, ts⟩ := pu
  by_cases hg : ss ≠ 0 ∧ ts ≠ 0 ∧ ss > ts <;>
    simp [shrinkPartOps, hg, partStep]

theorem shrinkPartOps_post (pu : String × DynamicPartitionUpdate) :
    (shrinkPartOps pu).foldl (partStep pu.1) (pval4 pu) = pval5 pu := by
  obtain ⟨p, sg, tg, ss, ts⟩ := pu
  by_cases hg : ss ≠ 0 ∧ ts ≠ 0 ∧ ss > ts <;>
    rcases sg with _ | gs <;> rcases tg with _ | gt <;>
    simp [shrinkPartOps, hg, pval4, pval5, size5, partStep]

end Common

namespace Common

/-! ## Phase 6: group removals and shrinks (lines 2624-2630) -/

theorem groupRemoveShrinkOps_local (ge : String × DynamicGroupUpdate) :
    ∀ op ∈ groupRemoveShrinkOps ge, GroupLocal ge.1 op := by
  obtain ⟨g, ss, ts⟩ := ge
  intro op hop
  rcases ss with _ | s <;> rcases ts with _ | t <;>
    simp [groupRemoveShrinkOps] at hop <;>
    first
    | (subst hop; simp [GroupLocal])
    | (by_cases hst : s > t <;> simp [hst] at hop <;>
        rcases hop with h | h <;> simp_all [GroupLocal])

theorem groupRemoveShrinkOps_shape (ge : String × DynamicGroupUpdate) :
    groupRemoveShrinkOps ge = [] ∨
    (∃ a, groupRemoveShrinkOps ge = [a]) ∨
    (∃ t b, groupRemoveShrinkOps ge = [Op.comment t, b] ∧
      groupStep ge.1 (gval0 ge) (Op.comment t) = gval0 ge) := by
  obtain ⟨g, ss, ts⟩ := ge
  rcases ss with _ | s <;> rcases ts with _ | t <;>
    simp [groupRemoveShrinkOps]
  by_cases hst : s > t <;> simp [hst, groupStep] <;> omega

theorem groupRemoveShrinkOps_post (ge : String × DynamicGroupUpdate) :
    (groupRemoveShrinkOps ge).foldl (groupStep ge.1) (gval0 ge)
      = gval6 ge := by
  obtain ⟨g, ss, ts⟩ := ge
  rcases ss with _ | s <;> rcases ts with _ | t <;>
    simp [groupRemoveShrinkOps, gval0, gval6, groupStep]
  by_cases hst : s > t <;> simp [hst, groupStep] <;> omega

/-! ## Phase 7: group additions and grows (lines 2632-2639) -/

theorem groupAddGrowOps_local (ge : String × DynamicGroupUpdate) :
    ∀ op ∈ groupAddGrowOps ge, GroupLocal ge.1 op := by
  obtain ⟨g, ss, ts⟩ := ge
  intro op hop
  rcases ss with _ | s <;> rcases ts with _ | t
  · simp [groupAddGrowOps] at hop
  · simp [groupAddGrowOps] at hop
    rcases hop with h | h <;> simp_all [GroupLocal]
  · simp [groupAddGrowOps] at hop
  · simp [groupAddGrowOps] at hop
    obtain ⟨-, h⟩ := hop
    rcases h with h | h <;> subst h <;> simp [GroupLocal]

theorem groupAddGrowOps_shape (ge : String × DynamicGroupUpdate) :
    groupAddGrowOps ge = [] ∨
    (∃ a, groupAddGrowOps ge = [a]) ∨
    (∃ t b, groupAddGrowOps ge = [Op.comment t, b] ∧
      groupStep ge.1 (gval6 ge) (Op.comment t) = gval6 ge) := by
  obtain ⟨g, ss, ts⟩ := ge
  rcases ss with _ | s <;> rcases ts with _ | t <;>
    simp [groupAddGrowOps, groupStep]
  by_cases hst : s < t <;> simp [hst, groupStep] <;> omega

theorem groupAddGrowOps_post (ge : String × DynamicGroupUpdate) :
    (groupAddGrowOps ge).foldl (groupStep ge.1) (gval6 ge) = gval7 ge := by
  obtain ⟨g, ss, ts⟩ := ge
  rcases ss with _ | s <;> rcases ts with _ | t <;>
    simp [groupAddGrowOps, gval6, gval7, groupStep]
  by_cases hst : s < t
  · simp [hst, groupStep]
  · have hle : ¬ s > t ∨ s > t := em _ |>.symm
    by_cases hgt : s > t
    · simp [hst, hgt, groupStep]
    · have : s = t := by omega
      simp [hst, hgt, this, groupStep]

/-! ## Phase 8: partition additions (lines 2641-2644) -/

theorem addPartOps_local (pu : String × DynamicPartitionUpdate) :
    ∀ op ∈ addPartOps pu, PartLocal pu.1 op := by
  obtain ⟨p, sg, tg, ss, ts⟩ := pu
  intro op hop
  rcases sg with _ | gs <;> rcases tg with _ | gt <;>
    simp [addPartOps] at hop <;>
    rcases hop with h | h <;> simp_all [PartLocal]

theorem addPartOps_shape (pu : String × DynamicPartitionUpdate) :
    addPartOps pu = [] ∨ (∃ a, addPartOps pu = [a]) ∨
    (∃ t b, addPartOps pu = [Op.comment t, b] ∧
      partStep pu.1 (pval5 pu) (Op.comment t) = pval5 pu) := by
  obtain ⟨p, sg, tg, ss, ts⟩ := pu
  rcases sg with _ | gs <;> rcases tg with _ | gt <;>
    simp [addPartOps, partStep]

theorem addPartOps_post (pu : String × DynamicPartitionUpdate) :
    (addPartOps pu).foldl (partStep pu.1) (pval5 pu) = pval8 pu := by
  obtain ⟨p, sg, tg, ss, ts⟩ := pu
  rcases sg with _ | gs <;> rcases tg with _ | gt <;>
    simp [addPartOps, pval5, pval8, partStep]

/-! ## Phase 9: partition grows (lines 2646-2649) -/

theorem growPartOps_local (pu : String × DynamicPartitionUpdate) :
    ∀ op ∈ growPartOps pu, PartLocal pu.1 op := by
  obtain ⟨p, sg, tg, ss, ts⟩ := pu
  intro op hop
  by_cases hg : ts ≠ 0 ∧ ss < ts <;>
    simp [growPartOps, hg] at hop <;>
    rcases hop with h | h <;> simp_all [PartLocal]

theorem growPartOps_shape (pu : String × DynamicPartitionUpdate) :
    growPartOps pu = [] ∨ (∃ a, growPartOps pu = [a]) ∨
    (∃ t b, growPartOps pu = [Op.comment t, b] ∧
      partStep pu.1 (pval8 pu) (Op.comment t) = pval8 pu) := by
  obtain ⟨p, sg, tg, ss, ts⟩ := pu
  by_cases hg : ts ≠ 0 ∧ ss < ts <;>
    simp [growPartOps, hg, partStep]

theorem growPartOps_post (pu : String × DynamicPartitionUpdate) :
    (growPartOps pu).foldl (partStep pu.1) (pval8 pu) = pval9 pu := by
  obtain ⟨p, sg, tg, ss, ts⟩ := pu
  by_cases hg : ts ≠ 0 ∧ ss < ts <;>
    rcases sg with _ | gs <;> rcases tg with _ | gt <;>
    simp [growPartOps, hg, pval8, pval9, size9, partStep]

/-! ## Phase 10: final moves to the target group (lines 2651-2655) -/

theorem moveTargetOps_local (pu : String × DynamicPartitionUpdate) :
    ∀ op ∈ moveTargetOps pu, PartLocal pu.1 op := by
  obtain ⟨p, sg, tg, ss, ts⟩ := pu
  intro op hop
  rcases sg with _ | gs <;> rcases tg with _ | gt <;>
    simp [moveTargetOps] at hop
  by_cases hgg : gs = gt <;> simp [hgg] at hop <;>
    rcases hop with h | h <;> simp_all [PartLocal]

theorem moveTargetOps_shape (pu : String × DynamicPartitionUpdate) :
    moveTargetOps pu = [] ∨ (∃ a, moveTargetOps pu = [a]) ∨
    (∃ t b, moveTargetOps pu = [Op.comment t, b] ∧
      partStep pu.1 (pval9 pu) (Op.comment t) = pval9 pu) := by
  obtain ⟨p, sg, tg, ss, ts⟩ := pu
  rcases sg with _ | gs <;> rcases tg with _ | gt <;>
    simp [moveTargetOps]
  by_cases hgg : gs = gt <;> simp [hgg, partStep]

theorem moveTargetOps_post (pu : String × DynamicPartitionUpdate) :
    (moveTargetOps pu).foldl (partStep pu.1) (pval9 pu) = pval10 pu := by
  obtain ⟨p, sg, tg, ss, ts⟩ := pu
  rcases sg with _ | gs <;> rcases tg with _ | gt <;>
    simp [moveTargetOps, pval9, pval10, partStep]
  by_cases hgg : gs = gt <;> simp [hgg, partStep]

end Common

namespace Common

/-! ## Association-list lemmas -/

theorem findEntry_of_mem {β : Type} (l : List (String × β))
    (hnd : (l.map Prod.fst).Nodup) (e : String × β) (he : e ∈ l) :
    findEntry l e.1 = some e.2 := by
  induction l with
  | nil => cases he
  | cons a rest ih =>
      rcases List.mem_cons.mp he with heq | hmem
      · rw [heq]
        simp [findEntry]
      · have hane : a.1 ≠ e.1 := by
          intro hc
          exact (List.nodup_cons.mp hnd).1
            (hc ▸ List.mem_map_of_mem Prod.fst hmem)
        rw [findEntry, if_neg hane]
        exact ih (List.nodup_cons.mp hnd).2 hmem

theorem findEntry_eq_none {β : Type} (l : List (String × β)) (p : String)
    (h : ∀ e ∈ l, p ≠ e.1) : findEntry l p = none := by
  induction l with
  | nil => rfl
  | cons a rest ih =>
      rw [findEntry, if_neg (fun hc => h a (List.mem_cons_self a rest) hc.symm)]
      exact ih (fun e he => h e (List.mem_cons_of_mem a he))

theorem mem_of_findEntry {β : Type} (l : List (String × β)) (k : String)
    (v : β) (h : findEntry l k = some v) : (k, v) ∈ l := by
  induction l with
  | nil => cases h
  | cons a rest ih =>
      rw [findEntry] at h
      by_cases hk : a.1 = k
      · rw [if_pos hk] at h
        have hv : a.2 = v := by simpa using h
        have hkv : (k, v) = a := by
          obtain ⟨a1, a2⟩ := a
          simp only at hk hv
          rw [hk, hv]
        rw [hkv]
        exact List.mem_cons_self a rest
      · rw [if_neg hk] at h
        exact List.mem_cons_of_mem a (ih h)

/-! ## Usage bounds -/

theorem usage_le_of_pointwise
    (entries : List (String × DynamicPartitionUpdate)) (s : DynState)
    (g : String) (bound : String × DynamicPartitionUpdate → Nat)
    (h : ∀ pu ∈ entries, contribV (s.parts pu.1) g ≤ bound pu) :
    usage entries s g ≤ (entries.map bound).sum := by
  unfold usage
  exact List.sum_le_sum h

/-- `usage` is at most the source ceiling of a declared group, when every
partition occupies at most its source share. -/
theorem usage_le_src_ceiling (d : DynamicPartitionsDifference)
    (hvs : ValidSource d) (s : DynState) (ge : String × DynamicGroupUpdate)
    (hge : ge ∈ d.group_updates) (c : Nat) (hc : ge.2.src_size = some c)
    (hc0 : c ≠ 0)
    (hp : ∀ pu ∈ d.partition_updates,
      contribV (s.parts pu.1) ge.1 ≤ srcContrib ge.1 pu) :
    usage d.partition_updates s ge.1 ≤ c :=
  le_trans (usage_le_of_pointwise _ s ge.1 (srcContrib ge.1) hp)
    (hvs ge hge c hc hc0)

/-- `usage` is at most the target ceiling of a declared group, when every
partition occupies at most its target share. -/
theorem usage_le_tgt_ceiling (d : DynamicPartitionsDifference)
    (hvt : ValidTarget d) (s : DynState) (ge : String × DynamicGroupUpdate)
    (hge : ge ∈ d.group_updates) (c : Nat) (hc : ge.2.tgt_size = some c)
    (hc0 : c ≠ 0)
    (hp : ∀ pu ∈ d.partition_updates,
      contribV (s.parts pu.1) ge.1 ≤ tgtContrib ge.1 pu) :
    usage d.partition_updates s ge.1 ≤ c :=
  le_trans (usage_le_of_pointwise _ s ge.1 (tgtContrib ge.1) hp)
    (hvt ge hge c hc hc0)

/-! ## Contribution bounds for the per-phase partition values -/

theorem contribV_pval0_eq (pu : String × DynamicPartitionUpdate)
    (g : String) : contribV (pval0 pu) g = srcContrib g pu := by
  obtain ⟨p, sg, tg, ss, ts⟩ := pu
  rcases sg with _ | gs <;> simp [pval0, contribV, srcContrib] <;>
    split_ifs with h <;> simp_all

theorem contribV_pval3_le_src (pu : String × DynamicPartitionUpdate)
    (g : String) : contribV (pval3 pu) g ≤ srcContrib g pu := by
  obtain ⟨p, sg, tg, ss, ts⟩ := pu
  rcases sg with _ | gs <;> rcases tg with _ | gt <;>
    simp [pval3, contribV, srcContrib] <;>
    split_ifs with h <;> simp_all

theorem contribV_pval4_le_src (pu : String × DynamicPartitionUpdate)
    (g : String) (hg : g ≠ "default") :
    contribV (pval4 pu) g ≤ srcContrib g pu := by
  obtain ⟨p, sg, tg, ss, ts⟩ := pu
  rcases sg with _ | gs <;> rcases tg with _ | gt <;>
    simp [pval4, contribV, srcContrib]
  by_cases hgg : gs = gt <;> simp [hgg] <;>
    split_ifs with h1 h2 <;> simp_all

theorem size5_le_src (pu : String × DynamicPartitionUpdate) :
    size5 pu ≤ pu.2.src_size := by
  obtain ⟨p, sg, tg, ss, ts⟩ := pu
  by_cases hgd : ss ≠ 0 ∧ ts ≠ 0 ∧ ss > ts <;> simp [size5, hgd] <;> omega

theorem contribV_pval5_le_src (pu : String × DynamicPartitionUpdate)
    (g : String) (hg : g ≠ "default") :
    contribV (pval5 pu) g ≤ srcContrib g pu := by
  have hs5 := size5_le_src pu
  obtain ⟨p, sg, tg, ss, ts⟩ := pu
  rcases sg with _ | gs <;> rcases tg with _ | gt <;>
    simp [pval5, contribV, srcContrib] at *
  by_cases hgg : gs = gt <;> simp [hgg] <;>
    split_ifs with h1 h2 <;> simp_all

theorem size5_le_tgt (pu : String × DynamicPartitionUpdate)
    (hlink : pu.2.tgt_size ≠ 0) : size5 pu ≤ pu.2.tgt_size := by
  obtain ⟨p, sg, tg, ss, ts⟩ := pu
  simp only at hlink
  by_cases hgd : ss ≠ 0 ∧ ts ≠ 0 ∧ ss > ts <;> simp [size5, hgd] <;> omega

theorem contribV_pval5_le_tgt (pu : String × DynamicPartitionUpdate)
    (g : String) (hg : g ≠ "default")
    (hlink : pu.2.tgt_group.isSome → pu.2.tgt_size ≠ 0) :
    contribV (pval5 pu) g ≤ tgtContrib g pu := by
  obtain ⟨p, sg, tg, ss, ts⟩ := pu
  rcases sg with _ | gs <;> rcases tg with _ | gt <;>
    simp [pval5, contribV, tgtContrib]
  have hts : ts ≠ 0 := by simpa using hlink
  have hs5 : size5 (p, ⟨some gs, some gt, ss, ts⟩) ≤ ts :=
    size5_le_tgt _ (by simpa using hts)
  by_cases hgg : gs = gt <;> simp [hgg] <;>
    split_ifs with h1 h2 <;> simp_all

end Common

namespace Common

theorem contribV_pval8_le_tgt (pu : String × DynamicPartitionUpdate)
    (g : String) (hg : g ≠ "default")
    (hlink : pu.2.tgt_group.isSome → pu.2.tgt_size ≠ 0) :
    contribV (pval8 pu) g ≤ tgtContrib g pu := by
  have h5 := contribV_pval5_le_tgt pu g hg hlink
  obtain ⟨p, sg, tg, ss, ts⟩ := pu
  rcases sg with _ | gs <;> rcases tg with _ | gt <;>
    simp [pval8, pval5, contribV, tgtContrib] at *
  split_ifs with h1 <;> simp_all

theorem size9_le_tgt (pu : String × DynamicPartitionUpdate) (cur : Nat)
    (hcur : cur ≤ pu.2.tgt_size) : size9 pu cur ≤ pu.2.tgt_size := by
  obtain ⟨p, sg, tg, ss, ts⟩ := pu
  simp only at hcur
  by_cases hgd : ts ≠ 0 ∧ ss < ts <;> simp [size9, hgd] <;> omega

theorem contribV_pval9_le_tgt (pu : String × DynamicPartitionUpdate)
    (g : String) (hg : g ≠ "default")
    (hlink : pu.2.tgt_group.isSome → pu.2.tgt_size ≠ 0) :
    contribV (pval9 pu) g ≤ tgtContrib g pu := by
  obtain ⟨p, sg, tg, ss, ts⟩ := pu
  rcases sg with _ | gs <;> rcases tg with _ | gt <;>
    simp [pval9, contribV, tgtContrib]
  · have h9 : size9 (p, ⟨none, some gt, ss, ts⟩) 0 ≤ ts :=
      size9_le_tgt _ 0 (Nat.zero_le ts)
    split_ifs with h1 <;> simp_all
  · have hts : ts ≠ 0 := by simpa using hlink
    have h5 : size5 (p, ⟨some gs, some gt, ss, ts⟩) ≤ ts :=
      size5_le_tgt _ (by simpa using hts)
    have h9 : size9 (p, ⟨some gs, some gt, ss, ts⟩)
        (size5 (p, ⟨some gs, some gt, ss, ts⟩)) ≤ ts :=
      size9_le_tgt _ _ (by simpa using h5)
    by_cases hgg : gs = gt <;> simp [hgg] <;>
      split_ifs with h1 h2 <;> simp_all

theorem contribV_pval10_le_tgt (pu : String × DynamicPartitionUpdate)
    (g : String) (hg : g ≠ "default")
    (hlink : pu.2.tgt_group.isSome → pu.2.tgt_size ≠ 0) :
    contribV (pval10 pu) g ≤ tgtContrib g pu := by
  obtain ⟨p, sg, tg, ss, ts⟩ := pu
  rcases sg with _ | gs <;> rcases tg with _ | gt <;>
    simp [pval10, contribV, tgtContrib]
  · have h9 : size9 (p, ⟨none, some gt, ss, ts⟩) 0 ≤ ts :=
      size9_le_tgt _ 0 (Nat.zero_le ts)
    split_ifs with h1 <;> simp_all
  · have hts : ts ≠ 0 := by simpa using hlink
    have h5 : size5 (p, ⟨some gs, some gt, ss, ts⟩) ≤ ts :=
      size5_le_tgt _ (by simpa using hts)
    have h9 : size9 (p, ⟨some gs, some gt, ss, ts⟩)
        (size5 (p, ⟨some gs, some gt, ss, ts⟩)) ≤ ts :=
      size9_le_tgt _ _ (by simpa using h5)
    split_ifs with h1 <;> simp_all

/-- With coherent group/size links, the value after the final phase is
exactly the declared target value. -/
theorem pval10_eq_tgtVal (pu : String × DynamicPartitionUpdate)
    (hlsrc : pu.2.src_group.isSome ↔ pu.2.src_size ≠ 0)
    (hltgt : pu.2.tgt_group.isSome ↔ pu.2.tgt_size ≠ 0) :
    pval10 pu = tgtVal pu := by
  obtain ⟨p, sg, tg, ss, ts⟩ := pu
  rcases sg with _ | gs <;> rcases tg with _ | gt <;>
    simp [pval10, tgtVal] at *
  · simp [size9]
    omega
  · have hss : ss ≠ 0 := hlsrc
    have hts : ts ≠ 0 := hltgt
    by_cases hcmp : ss < ts
    · simp [size9, hts, hcmp]
    · by_cases heq : ss = ts
      · simp [size9, size5, hcmp, heq]
      · have hgt : ss > ts := by omega
        simp [size9, size5, hcmp, hss, hts, hgt]

end Common

namespace Common

/-! ## Safety assembly -/

theorem SafeState_of_keys (d : DynamicPartitionsDifference) (s : DynState)
    (hgnone : ∀ h, (∀ ge ∈ d.group_updates, h ≠ ge.1) → s.groups h = none)
    (hceil : ∀ ge ∈ d.group_updates, ∀ c, s.groups ge.1 = some c → c ≠ 0 →
      usage d.partition_updates s ge.1 ≤ c) :
    SafeState d s := by
  intro g c hgc hc0
  by_cases hkey : ∀ ge ∈ d.group_updates, g ≠ ge.1
  · rw [hgnone g hkey] at hgc
    cases hgc
  · push_neg at hkey
    obtain ⟨ge, hge, hgeq⟩ := hkey
    rw [hgeq] at hgc ⊢
    exact hceil ge hge c hgc hc0

theorem srcState_descr (d : DynamicPartitionsDifference)
    (hndP : (d.partition_updates.map Prod.fst).Nodup)
    (hndG : (d.group_updates.map Prod.fst).Nodup) :
    StateDescr d pval0 gval0 (srcState d) := by
  refine ⟨?_, ?_, ?_, ?_⟩
  · intro pu hpu
    show (match findEntry d.partition_updates pu.1 with
      | some u => match u.src_group with
        | some g => some (g, u.src_size)
        | none => none
      | none => none) = pval0 pu
    rw [findEntry_of_mem d.partition_updates hndP pu hpu]
    rfl
  · intro q hq
    show (match findEntry d.partition_updates q with
      | some u => match u.src_group with
        | some g => some (g, u.src_size)
        | none => none
      | none => none) = none
    rw [findEntry_eq_none d.partition_updates q
      (fun e he => hq e he)]
  · intro ge hge
    show (match findEntry d.group_updates ge.1 with
      | some gu => gu.src_size
      | none => none) = gval0 ge
    rw [findEntry_of_mem d.group_updates hndG ge hge]
    rfl
  · intro h hh
    show (match findEntry d.group_updates h with
      | some gu => gu.src_size
      | none => none) = none
    rw [findEntry_eq_none d.group_updates h (fun e he => hh e he)]

theorem srcState_safe (d : DynamicPartitionsDifference)
    (hndP : (d.partition_updates.map Prod.fst).Nodup)
    (hndG : (d.group_updates.map Prod.fst).Nodup)
    (hvs : ValidSource d) : SafeState d (srcState d) := by
  obtain ⟨hdp, hdq, hdg, hdgn⟩ := srcState_descr d hndP hndG
  apply SafeState_of_keys
  · exact hdgn
  · intro ge hge c hc hc0
    have hsrc : ge.2.src_size = some c := by
      rw [hdg ge hge] at hc
      exact hc
    apply usage_le_src_ceiling d hvs _ ge hge c hsrc hc0
    intro pu hpu
    rw [hdp pu hpu, contribV_pval0_eq]

/-- The all-none state reached by `remove_all_groups`. -/
theorem emptyState_safe (d : DynamicPartitionsDifference) :
    SafeState d ⟨fun _ => none, fun _ => none⟩ := by
  intro g c hgc
  cases hgc

theorem prePhase (d : DynamicPartitionsDifference)
    (hndP : (d.partition_updates.map Prod.fst).Nodup)
    (hndG : (d.group_updates.map Prod.fst).Nodup)
    (hvs : ValidSource d)
    (hremove : d.remove_all_before_apply = true → SourceEmpty d) :
    StateDescr d pval0 gval0 (replay (srcState d) (preOps d)) ∧
    (∀ n, SafeState d (replay (srcState d) ((preOps d).take n))) := by
  have hdescr := srcState_descr d hndP hndG
  have hsafe := srcState_safe d hndP hndG hvs
  by_cases hr : d.remove_all_before_apply
  · obtain ⟨hparts, hgroups⟩ := hremove hr
    have hdescr2 : StateDescr d pval0 gval0
        (⟨fun _ => none, fun _ => none⟩ : DynState) := by
      refine ⟨?_, fun _ _ => rfl, ?_, fun _ _ => rfl⟩
      · intro pu hpu
        have := (hparts pu hpu).1
        simp [pval0, this]
      · intro ge hge
        have := hgroups ge hge
        simp [gval0, this]
    constructor
    · simp only [preOps, hr, if_true]
      exact hdescr2
    · intro n
      simp only [preOps, hr, if_true]
      match n with
      | 0 => exact hsafe
      | 1 => exact hsafe
      | (k + 2) =>
          rw [List.take_of_length_le (by simp)]
          exact emptyState_safe d
  · have hpre : preOps d = [] := by simp [preOps, hr]
    rw [hpre]
    exact ⟨hdescr, fun n => by cases n <;> exact hsafe⟩

end Common

namespace Common

/-- A partition phase executed while group ceilings are still at their
source values: advances the state description and is safe at every
prefix. -/
theorem partPhaseStepSrc (d : DynamicPartitionsDifference)
    (hdef : ∀ ge ∈ d.group_updates, ge.1 ≠ "default")
    (hndP : (d.partition_updates.map Prod.fst).Nodup)
    (hvs : ValidSource d)
    (f : String × DynamicPartitionUpdate → List Op)
    (pre post : String × DynamicPartitionUpdate → Option (String × Nat))
    (hf : ∀ pu, ∀ op ∈ f pu, PartLocal pu.1 op)
    (hshape : ∀ pu, f pu = [] ∨ (∃ a, f pu = [a]) ∨
      (∃ t b, f pu = [Op.comment t, b] ∧
        partStep pu.1 (pre pu) (Op.comment t) = pre pu))
    (hpost : ∀ pu, (f pu).foldl (partStep pu.1) (pre pu) = post pu)
    (hbpre : ∀ pu ∈ d.partition_updates, ∀ g, g ≠ "default" →
      contribV (pre pu) g ≤ srcContrib g pu)
    (hbpost : ∀ pu ∈ d.partition_updates, ∀ g, g ≠ "default" →
      contribV (post pu) g ≤ srcContrib g pu)
    (gv : String × DynamicGroupUpdate → Option Nat)
    (hgv : ∀ ge ∈ d.group_updates, ∀ c, gv ge = some c →
      ge.2.src_size = some c)
    (s : DynState) (hdescr : StateDescr d pre gv s) :
    StateDescr d post gv (replay s (d.partition_updates.flatMap f)) ∧
    (∀ n, SafeState d
      (replay s ((d.partition_updates.flatMap f).take n))) := by
  obtain ⟨hdp, hdq, hdg, hdgn⟩ := hdescr
  constructor
  · obtain ⟨hg, hoth, hval⟩ := bindPartPhase_final f pre post hf hpost
      d.partition_updates s hndP hdp
    refine ⟨hval, ?_, ?_, ?_⟩
    · intro q hq
      rw [hoth q hq]
      exact hdq q hq
    · intro ge hge
      rw [congrFun hg ge.1]
      exact hdg ge hge
    · intro h hh
      rw [congrFun hg h]
      exact hdgn h hh
  · intro n
    obtain ⟨hg, hoth, hval⟩ := bindPartPhase_mid f pre post hf
      (fun pu k => foldl_take_pre_post _ _ _ _ (hpost pu) (hshape pu) k)
      d.partition_updates s hndP hdp n
    apply SafeState_of_keys
    · intro h hh
      rw [congrFun hg h]
      exact hdgn h hh
    · intro ge hge c hc hc0
      have hsrc : ge.2.src_size = some c := by
        apply hgv ge hge c
        rw [← hdg ge hge, ← congrFun hg ge.1]
        exact hc
      apply usage_le_src_ceiling d hvs _ ge hge c hsrc hc0
      intro pu hpu
      have hgd : ge.1 ≠ "default" := hdef ge hge
      rcases hval pu hpu with h | h <;> rw [h]
      · exact hbpre pu hpu ge.1 hgd
      · exact hbpost pu hpu ge.1 hgd

/-- A partition phase executed after group ceilings reached their target
values: advances the state description and is safe at every prefix. -/
theorem partPhaseStepTgt (d : DynamicPartitionsDifference)
    (hdef : ∀ ge ∈ d.group_updates, ge.1 ≠ "default")
    (hndP : (d.partition_updates.map Prod.fst).Nodup)
    (hvt : ValidTarget d)
    (f : String × DynamicPartitionUpdate → List Op)
    (pre post : String × DynamicPartitionUpdate → Option (String × Nat))
    (hf : ∀ pu, ∀ op ∈ f pu, PartLocal pu.1 op)
    (hshape : ∀ pu, f pu = [] ∨ (∃ a, f pu = [a]) ∨
      (∃ t b, f pu = [Op.comment t, b] ∧
        partStep pu.1 (pre pu) (Op.comment t) = pre pu))
    (hpost : ∀ pu, (f pu).foldl (partStep pu.1) (pre pu) = post pu)
    (hbpre : ∀ pu ∈ d.partition_updates, ∀ g, g ≠ "default" →
      contribV (pre pu) g ≤ tgtContrib g pu)
    (hbpost : ∀ pu ∈ d.partition_updates, ∀ g, g ≠ "default" →
      contribV (post pu) g ≤ tgtContrib g pu)
    (gv : String × DynamicGroupUpdate → Option Nat)
    (hgv : ∀ ge ∈ d.group_updates, ∀ c, gv ge = some c →
      ge.2.tgt_size = some c)
    (s : DynState) (hdescr : StateDescr d pre gv s) :
    StateDescr d post gv (replay s (d.partition_updates.flatMap f)) ∧
    (∀ n, SafeState d
      (replay s ((d.partition_updates.flatMap f).take n))) := by
  obtain ⟨hdp, hdq, hdg, hdgn⟩ := hdescr
  constructor
  · obtain ⟨hg, hoth, hval⟩ := bindPartPhase_final f pre post hf hpost
      d.partition_updates s hndP hdp
    refine ⟨hval, ?_, ?_, ?_⟩
    · intro q hq
      rw [hoth q hq]
      exact hdq q hq
    · intro ge hge
      rw [congrFun hg ge.1]
      exact hdg ge hge
    · intro h hh
      rw [congrFun hg h]
      exact hdgn h hh
  · intro n
    obtain ⟨hg, hoth, hval⟩ := bindPartPhase_mid f pre post hf
      (fun pu k => foldl_take_pre_post _ _ _ _ (hpost pu) (hshape pu) k)
      d.partition_updates s hndP hdp n
    apply SafeState_of_keys
    · intro h hh
      rw [congrFun hg h]
      exact hdgn h hh
    · intro ge hge c hc hc0
      have htgt : ge.2.tgt_size = some c := by
        apply hgv ge hge c
        rw [← hdg ge hge, ← congrFun hg ge.1]
        exact hc
      apply usage_le_tgt_ceiling d hvt _ ge hge c htgt hc0
      intro pu hpu
      have hgd : ge.1 ≠ "default" := hdef ge hge
      rcases hval pu hpu with h | h <;> rw [h]
      · exact hbpre pu hpu ge.1 hgd
      · exact hbpost pu hpu ge.1 hgd

/-- A group phase executed while every partition sits at its phase-5
value, which fits both its source and its target share: advances the
ceilings and is safe at every prefix. -/
theorem groupPhaseStep (d : DynamicPartitionsDifference)
    (hdef : ∀ ge ∈ d.group_updates, ge.1 ≠ "default")
    (hndG : (d.group_updates.map Prod.fst).Nodup)
    (hvs : ValidSource d) (hvt : ValidTarget d)
    (hlink : ∀ pu ∈ d.partition_updates,
      pu.2.tgt_group.isSome → pu.2.tgt_size ≠ 0)
    (f : String × DynamicGroupUpdate → List Op)
    (preG postG : String × DynamicGroupUpdate → Option Nat)
    (hf : ∀ ge, ∀ op ∈ f ge, GroupLocal ge.1 op)
    (hshape : ∀ ge, f ge = [] ∨ (∃ a, f ge = [a]) ∨
      (∃ t b, f ge = [Op.comment t, b] ∧
        groupStep ge.1 (preG ge) (Op.comment t) = preG ge))
    (hpost : ∀ ge, (f ge).foldl (groupStep ge.1) (preG ge) = postG ge)
    (hsides : ∀ ge ∈ d.group_updates, ∀ c,
      (preG ge = some c ∨ postG ge = some c) →
      ge.2.src_size = some c ∨ ge.2.tgt_size = some c)
    (s : DynState) (hdescr : StateDescr d pval5 preG s) :
    StateDescr d pval5 postG (replay s (d.group_updates.flatMap f)) ∧
    (∀ n, SafeState d
      (replay s ((d.group_updates.flatMap f).take n))) := by
  obtain ⟨hdp, hdq, hdg, hdgn⟩ := hdescr
  constructor
  · obtain ⟨hp, hoth, hval⟩ := bindGroupPhase_final f preG postG hf hpost
      d.group_updates s hndG hdg
    refine ⟨?_, ?_, hval, ?_⟩
    · intro pu hpu
      rw [congrFun hp pu.1]
      exact hdp pu hpu
    · intro q hq
      rw [congrFun hp q]
      exact hdq q hq
    · intro h hh
      rw [hoth h hh]
      exact hdgn h hh
  · intro n
    obtain ⟨hp, hoth, hval⟩ := bindGroupPhase_mid f preG postG hf
      (fun ge k => foldl_take_pre_post _ _ _ _ (hpost ge) (hshape ge) k)
      d.group_updates s hndG hdg n
    apply SafeState_of_keys
    · intro h hh
      rw [hoth h hh]
      exact hdgn h hh
    · intro ge hge c hc hc0
      have hside : ge.2.src_size = some c ∨ ge.2.tgt_size = some c := by
        apply hsides ge hge c
        rcases hval ge hge with h | h
        · exact Or.inl (h ▸ hc)
        · exact Or.inr (h ▸ hc)
      have husage : usage d.partition_updates
          (replay s ((d.group_updates.flatMap f).take n)) ge.1 =
          usage d.partition_updates s ge.1 := by
        unfold usage
        rw [hp]
      have hgd : ge.1 ≠ "default" := hdef ge hge
      rcases hside with hsc | htc
      · rw [husage]
        apply usage_le_src_ceiling d hvs s ge hge c hsc hc0
        intro pu hpu
        rw [hdp pu hpu]
        exact contribV_pval5_le_src pu ge.1 hgd
      · rw [husage]
        apply usage_le_tgt_ceiling d hvt s ge hge c htc hc0
        intro pu hpu
        rw [hdp pu hpu]
        exact contribV_pval5_le_tgt pu ge.1 hgd (hlink pu hpu)

end Common

namespace Common

/-! ## Chaining prefix safety through list appends -/

theorem safe_take_append (d : DynamicPartitionsDifference) (s : DynState)
    (a b : List Op)
    (ha : ∀ n, SafeState d (replay s (a.take n)))
    (hb : ∀ n, SafeState d (replay (replay s a) (b.take n))) :
    ∀ n, SafeState d (replay s ((a ++ b).take n)) := by
  intro n
  rw [List.take_append_eq_append_take, replay_append]
  by_cases h : n ≤ a.length
  · have h0 : n - a.length = 0 := Nat.sub_eq_zero_of_le h
    rw [h0]
    exact ha n
  · have ha' : a.take n = a :=
      List.take_of_length_le (Nat.le_of_lt (Nat.lt_of_not_le h))
    rw [ha']
    exact hb (n - a.length)

/-! ## Ceiling sides at the group-phase boundaries -/

theorem gval06_sides (ge : String × DynamicGroupUpdate) (c : Nat)
    (h : gval0 ge = some c ∨ gval6 ge = some c) :
    ge.2.src_size = some c ∨ ge.2.tgt_size = some c := by
  obtain ⟨g, ss, ts⟩ := ge
  rcases h with h | h
  · exact Or.inl h
  · rcases ss with _ | s <;> rcases ts with _ | t <;> simp [gval6] at h
    split_ifs at h with hst
    · exact Or.inr (by simp [h])
    · exact Or.inl (by simp [h])

theorem gval67_sides (ge : String × DynamicGroupUpdate) (c : Nat)
    (h : gval6 ge = some c ∨ gval7 ge = some c) :
    ge.2.src_size = some c ∨ ge.2.tgt_size = some c := by
  obtain ⟨g, ss, ts⟩ := ge
  rcases h with h | h
  · rcases ss with _ | s <;> rcases ts with _ | t <;> simp [gval6] at h
    split_ifs at h with hst
    · exact Or.inr (by simp [h])
    · exact Or.inl (by simp [h])
  · exact Or.inr h

theorem DynState_eq (s t : DynState) (hp : s.parts = t.parts)
    (hg : s.groups = t.groups) : s = t := by
  cases s
  cases t
  simp only at hp hg
  rw [hp, hg]

end Common

namespace Common

/-- C1: for every planner input with coherent declarations and valid
declared source and target topologies (normal path), replaying the
operation list produced by `_Compute` in order against the declared source
topology yields exactly the declared target topology (partition-to-group
membership, partition sizes, group ceilings), and at every prefix of the
list the running total member size of each group never exceeds that
group's currently-declared ceiling. -/
theorem claim_C1_replay_invariant (d : DynamicPartitionsDifference)
    (hwf : WellFormed d) (hvs : ValidSource d) (hvt : ValidTarget d)
    (hbwv : d.build_without_vendor = false) :
    (∀ n, SafeState d (replay (srcState d) ((d.Compute).take n))) ∧
    replay (srcState d) d.Compute = tgtState d := by
  obtain ⟨hndP, hndG, hlinks, hdef, hremove⟩ := hwf
  have hlinkT : ∀ pu ∈ d.partition_updates,
      pu.2.tgt_group.isSome → pu.2.tgt_size ≠ 0 :=
    fun pu hpu hs => ((hlinks pu hpu).2).mp hs
  obtain ⟨descr0, safe0⟩ := prePhase d hndP hndG hvs hremove
  obtain ⟨descr3, safe3⟩ := partPhaseStepSrc d hdef hndP hvs
    removePartOps pval0 pval3 removePartOps_local removePartOps_shape
    removePartOps_post
    (fun pu _ g _ => le_of_eq (contribV_pval0_eq pu g))
    (fun pu _ g _ => contribV_pval3_le_src pu g)
    gval0 (fun ge _ c h => h) _ descr0
  obtain ⟨descr4, safe4⟩ := partPhaseStepSrc d hdef hndP hvs
    moveDefaultOps pval3 pval4 moveDefaultOps_local moveDefaultOps_shape
    moveDefaultOps_post
    (fun pu _ g _ => contribV_pval3_le_src pu g)
    (fun pu _ g hg => contribV_pval4_le_src pu g hg)
    gval0 (fun ge _ c h => h) _ descr3
  obtain ⟨descr5, safe5⟩ := partPhaseStepSrc d hdef hndP hvs
    shrinkPartOps pval4 pval5 shrinkPartOps_local shrinkPartOps_shape
    shrinkPartOps_post
    (fun pu _ g hg => contribV_pval4_le_src pu g hg)
    (fun pu _ g hg => contribV_pval5_le_src pu g hg)
    gval0 (fun ge _ c h => h) _ descr4
  obtain ⟨descr6, safe6⟩ := groupPhaseStep d hdef hndG hvs hvt hlinkT
    groupRemoveShrinkOps gval0 gval6 groupRemoveShrinkOps_local
    groupRemoveShrinkOps_shape groupRemoveShrinkOps_post
    (fun ge _ c h => gval06_sides ge c h) _ descr5
  obtain ⟨descr7, safe7⟩ := groupPhaseStep d hdef hndG hvs hvt hlinkT
    groupAddGrowOps gval6 gval7 groupAddGrowOps_local
    groupAddGrowOps_shape groupAddGrowOps_post
    (fun ge _ c h => gval67_sides ge c h) _ descr6
  obtain ⟨descr8, safe8⟩ := partPhaseStepTgt d hdef hndP hvt
    addPartOps pval5 pval8 addPartOps_local addPartOps_shape
    addPartOps_post
    (fun pu hpu g hg => contribV_pval5_le_tgt pu g hg (hlinkT pu hpu))
    (fun pu hpu g hg => contribV_pval8_le_tgt pu g hg (hlinkT pu hpu))
    gval7 (fun ge _ c h => h) _ descr7
  obtain ⟨descr9, safe9⟩ := partPhaseStepTgt d hdef hndP hvt
    growPartOps pval8 pval9 growPartOps_local growPartOps_shape
    growPartOps_post
    (fun pu hpu g hg => contribV_pval8_le_tgt pu g hg (hlinkT pu hpu))
    (fun pu hpu g hg => contribV_pval9_le_tgt pu g hg (hlinkT pu hpu))
    gval7 (fun ge _ c h => h) _ descr8
  obtain ⟨descr10, safe10⟩ := partPhaseStepTgt d hdef hndP hvt
    moveTargetOps pval9 pval10 moveTargetOps_local moveTargetOps_shape
    moveTargetOps_post
    (fun pu hpu g hg => contribV_pval9_le_tgt pu g hg (hlinkT pu hpu))
    (fun pu hpu g hg => contribV_pval10_le_tgt pu g hg (hlinkT pu hpu))
    gval7 (fun ge _ c h => h) _ descr9
  have hco : d.Compute =
      preOps d ++ (d.partition_updates.flatMap removePartOps ++
      (d.partition_updates.flatMap moveDefaultOps ++
      (d.partition_updates.flatMap shrinkPartOps ++
      (d.group_updates.flatMap groupRemoveShrinkOps ++
      (d.group_updates.flatMap groupAddGrowOps ++
      (d.partition_updates.flatMap addPartOps ++
      (d.partition_updates.flatMap growPartOps ++
      d.partition_updates.flatMap moveTargetOps))))))) := by
    simp [DynamicPartitionsDifference.Compute, hbwv, List.append_assoc]
  have c9 := safe_take_append d _ _ _ safe9 safe10
  have c8 := safe_take_append d _ _ _ safe8 c9
  have c7 := safe_take_append d _ _ _ safe7 c8
  have c6 := safe_take_append d _ _ _ safe6 c7
  have c5 := safe_take_append d _ _ _ safe5 c6
  have c4 := safe_take_append d _ _ _ safe4 c5
  have c3 := safe_take_append d _ _ _ safe3 c4
  have c0 := safe_take_append d _ _ _ safe0 c3
  constructor
  · intro n
    rw [hco]
    exact c0 n
  · rw [hco, replay_append, replay_append, replay_append, replay_append,
      replay_append, replay_append, replay_append, replay_append]
    obtain ⟨hp10, hq10, hg10, hgn10⟩ := descr10
    apply DynState_eq
    · funext p
      by_cases hkey : ∀ pu ∈ d.partition_updates, p ≠ pu.1
      · rw [hq10 p hkey]
        have htn : (tgtState d).parts p = none := by
          show (match findEntry d.partition_updates p with
            | some u => match u.tgt_group with
              | some g => some (g, u.tgt_size)
              | none => none
            | none => none) = none
          rw [findEntry_eq_none d.partition_updates p hkey]
        rw [htn]
      · push_neg at hkey
        obtain ⟨pu, hpu, hpeq⟩ := hkey
        rw [hpeq, hp10 pu hpu,
          pval10_eq_tgtVal pu (hlinks pu hpu).1 (hlinks pu hpu).2]
        have htv : (tgtState d).parts pu.1 = tgtVal pu := by
          show (match findEntry d.partition_updates pu.1 with
            | some u => match u.tgt_group with
              | some g => some (g, u.tgt_size)
              | none => none
            | none => none) = tgtVal pu
          rw [findEntry_of_mem d.partition_updates hndP pu hpu]
          rfl
        rw [htv]
    · funext g
      by_cases hkey : ∀ ge ∈ d.group_updates, g ≠ ge.1
      · rw [hgn10 g hkey]
        have htn : (tgtState d).groups g = none := by
          show (match findEntry d.group_updates g with
            | some gu => gu.tgt_size
            | none => none) = none
          rw [findEntry_eq_none d.group_updates g hkey]
        rw [htn]
      · push_neg at hkey
        obtain ⟨ge, hge, hgeq⟩ := hkey
        rw [hgeq, hg10 ge hge]
        have htv : (tgtState d).groups ge.1 = ge.2.tgt_size := by
          show (match findEntry d.group_updates ge.1 with
            | some gu => gu.tgt_size
            | none => none) = ge.2.tgt_size
          rw [findEntry_of_mem d.group_updates hndG ge hge]
        rw [htv]
        rfl

end Common

namespace Common

/-! ## Ordering lemmas -/

theorem opsOrdered_of_split (P Q : Op → Prop) (l₁ l₂ : List Op)
    (h2 : ∀ op ∈ l₂, ¬ P op) (h1 : ∀ op ∈ l₁, ¬ Q op) :
    OpsOrdered P Q (l₁ ++ l₂) := by
  intro i j hi hj hP hQ
  have hij : i < l₁.length := by
    by_contra hc
    have hge : l₁.length ≤ i := Nat.le_of_not_lt hc
    apply h2 ((l₁ ++ l₂).get ⟨i, hi⟩) ?_ hP
    rw [List.get_eq_getElem, List.getElem_append_right hge]
    exact List.getElem_mem _
  have hjl : l₁.length ≤ j := by
    by_contra hc
    have hlt : j < l₁.length := Nat.lt_of_not_le hc
    apply h1 ((l₁ ++ l₂).get ⟨j, hj⟩) ?_ hQ
    rw [List.get_eq_getElem, List.getElem_append_left hlt]
    exact List.getElem_mem _
  omega

/-! ## Shapes of the per-entry operation lists -/

theorem mem_preOps (d : DynamicPartitionsDifference) (op : Op)
    (h : op ∈ preOps d) :
    (∃ t, op = Op.comment t) ∨ op = Op.remove_all_groups := by
  unfold preOps at h
  split_ifs at h
  · simp only [List.mem_cons, List.not_mem_nil, or_false] at h
    rcases h with h | h
    · exact Or.inl ⟨_, h⟩
    · exact Or.inr h
  · simp at h

theorem mem_removePartOps (pu : String × DynamicPartitionUpdate) (op : Op)
    (h : op ∈ removePartOps pu) : op = Op.remove pu.1 := by
  obtain ⟨p, sg, tg, ss, ts⟩ := pu
  rcases sg with _ | gs <;> rcases tg with _ | gt <;>
    simp [removePartOps] at h <;> simp [h]

theorem mem_moveDefaultOps (pu : String × DynamicPartitionUpdate) (op : Op)
    (h : op ∈ moveDefaultOps pu) :
    (∃ t, op = Op.comment t) ∨ op = Op.move pu.1 "default" := by
  obtain ⟨p, sg, tg, ss, ts⟩ := pu
  rcases sg with _ | gs <;> rcases tg with _ | gt <;>
    simp [moveDefaultOps] at h
  by_cases hgg : gs = gt <;> simp [hgg] at h
  rcases h with h | h
  · exact Or.inl ⟨_, h⟩
  · exact Or.inr (by simp [h])

theorem mem_shrinkPartOps (pu : String × DynamicPartitionUpdate) (op : Op)
    (h : op ∈ shrinkPartOps pu) :
    (∃ t, op = Op.comment t) ∨
    (op = Op.resize pu.1 pu.2.tgt_size ∧
      pu.2.tgt_size < pu.2.src_size) := by
  obtain ⟨p, sg, tg, ss, ts⟩ := pu
  by_cases hg : ss ≠ 0 ∧ ts ≠ 0 ∧ ss > ts <;>
    simp [shrinkPartOps, hg] at h
  rcases h with h | h
  · exact Or.inl ⟨_, h⟩
  · exact Or.inr (by simp [h]; omega)

theorem mem_groupRemoveShrinkOps (ge : String × DynamicGroupUpdate)
    (op : Op) (h : op ∈ groupRemoveShrinkOps ge) :
    (∃ t, op = Op.comment t) ∨ op = Op.remove_group ge.1 ∨
    (∃ m, op = Op.resize_group ge.1 m) := by
  obtain ⟨g, ss, ts⟩ := ge
  rcases ss with _ | s <;> rcases ts with _ | t <;>
    simp [groupRemoveShrinkOps] at h
  · simp [h]
  · obtain ⟨-, h⟩ := h
    rcases h with h | h
    · exact Or.inl ⟨_, h⟩
    · exact Or.inr (Or.inr ⟨_, h⟩)

theorem mem_groupAddGrowOps (ge : String × DynamicGroupUpdate)
    (op : Op) (h : op ∈ groupAddGrowOps ge) :
    (∃ t, op = Op.comment t) ∨ (∃ m, op = Op.add_group ge.1 m) ∨
    (∃ m, op = Op.resize_group ge.1 m) := by
  obtain ⟨g, ss, ts⟩ := ge
  rcases ss with _ | s <;> rcases ts with _ | t <;>
    simp [groupAddGrowOps] at h
  · rcases h with h | h
    · exact Or.inl ⟨_, h⟩
    · exact Or.inr (Or.inl ⟨_, h⟩)
  · obtain ⟨-, h⟩ := h
    rcases h with h | h
    · exact Or.inl ⟨_, h⟩
    · exact Or.inr (Or.inr ⟨_, h⟩)

theorem mem_addPartOps (pu : String × DynamicPartitionUpdate) (op : Op)
    (h : op ∈ addPartOps pu) :
    (∃ t, op = Op.comment t) ∨ (∃ g, op = Op.add pu.1 g) := by
  obtain ⟨p, sg, tg, ss, ts⟩ := pu
  rcases sg with _ | gs <;> rcases tg with _ | gt <;>
    simp [addPartOps] at h
  rcases h with h | h
  · exact Or.inl ⟨_, h⟩
  · exact Or.inr ⟨_, h⟩

theorem mem_growPartOps (pu : String × DynamicPartitionUpdate) (op : Op)
    (h : op ∈ growPartOps pu) :
    (∃ t, op = Op.comment t) ∨
    (op = Op.resize pu.1 pu.2.tgt_size ∧
      pu.2.src_size < pu.2.tgt_size) := by
  obtain ⟨p, sg, tg, ss, ts⟩ := pu
  by_cases hg : ts ≠ 0 ∧ ss < ts <;> simp [growPartOps, hg] at h
  rcases h with h | h
  · exact Or.inl ⟨_, h⟩
  · exact Or.inr (by simp [h]; omega)

theorem mem_moveTargetOps (pu : String × DynamicPartitionUpdate) (op : Op)
    (h : op ∈ moveTargetOps pu) :
    (∃ t, op = Op.comment t) ∨
    (∃ gs gt, pu.2.src_group = some gs ∧ pu.2.tgt_group = some gt ∧
      gs ≠ gt ∧ op = Op.move pu.1 gt) := by
  obtain ⟨p, sg, tg, ss, ts⟩ := pu
  rcases sg with _ | gs <;> rcases tg with _ | gt <;>
    simp [moveTargetOps] at h
  by_cases hgg : gs = gt <;> simp [hgg] at h
  rcases h with h | h
  · exact Or.inl ⟨_, h⟩
  · exact Or.inr ⟨gs, gt, rfl, rfl, hgg, by simp [h]⟩

end Common

namespace Common

theorem entry_unique {β : Type} (l : List (String × β))
    (hnd : (l.map Prod.fst).Nodup) (p : String)
    (u : β) (hpu : (p, u) ∈ l)
    (pu' : String × β) (hpu' : pu' ∈ l)
    (hname : pu'.1 = p) : pu'.2 = u := by
  have h1 := findEntry_of_mem l hnd (p, u) hpu
  have h2 := findEntry_of_mem l hnd pu' hpu'
  rw [hname, h1] at h2
  exact (Option.some_inj.mp h2).symm

theorem mem_bwvResizeOps (pu : String × DynamicPartitionUpdate) (op : Op)
    (h : op ∈ bwvResizeOps pu) :
    (∃ t, op = Op.comment t) ∨ op = Op.resize pu.1 pu.2.tgt_size := by
  simp only [bwvResizeOps, List.mem_cons, List.not_mem_nil, or_false] at h
  rcases h with h | h
  · exact Or.inl ⟨_, h⟩
  · exact Or.inr h

/-- C3: on the normal path, every `resize` that shrinks a partition
appears strictly before every `resize_group` operation (in particular
before the one shrinking its group), and every `add_group`/`resize_group`
operation (in particular a growing one) appears strictly before every
`add` of a partition and every `resize` that grows a partition. -/
theorem claim_C3_cascade_order (d : DynamicPartitionsDifference)
    (hbwv : d.build_without_vendor = false)
    (hndP : (d.partition_updates.map Prod.fst).Nodup)
    (p : String) (u : DynamicPartitionUpdate)
    (hpu : (p, u) ∈ d.partition_updates) :
    OpsOrdered (fun op => ∃ n, op = Op.resize p n ∧ n < u.src_size)
      (fun op => ∃ g m, op = Op.resize_group g m) d.Compute ∧
    OpsOrdered (fun op => (∃ g m, op = Op.add_group g m) ∨
        (∃ g m, op = Op.resize_group g m))
      (fun op => (∃ g, op = Op.add p g) ∨
        (∃ n, op = Op.resize p n ∧ u.src_size < n)) d.Compute := by
  constructor
  · have hco : d.Compute =
        (preOps d ++ (d.partition_updates.flatMap removePartOps ++
         (d.partition_updates.flatMap moveDefaultOps ++
          d.partition_updates.flatMap shrinkPartOps))) ++
        (d.group_updates.flatMap groupRemoveShrinkOps ++
         (d.group_updates.flatMap groupAddGrowOps ++
          (d.partition_updates.flatMap addPartOps ++
           (d.partition_updates.flatMap growPartOps ++
            d.partition_updates.flatMap moveTargetOps)))) := by
      simp [DynamicPartitionsDifference.Compute, hbwv, List.append_assoc]
    rw [hco]
    apply opsOrdered_of_split
    · intro op hop
      rintro ⟨n, rfl, hlt⟩
      rcases List.mem_append.mp hop with h | h
      · rcases List.mem_flatMap.mp h with ⟨ge, _, hmem⟩
        rcases mem_groupRemoveShrinkOps ge _ hmem with ⟨t, ht⟩ | ht | ⟨m, ht⟩ <;>
          exact Op.noConfusion ht
      rcases List.mem_append.mp h with h | h
      · rcases List.mem_flatMap.mp h with ⟨ge, _, hmem⟩
        rcases mem_groupAddGrowOps ge _ hmem with ⟨t, ht⟩ | ⟨m, ht⟩ | ⟨m, ht⟩ <;>
          exact Op.noConfusion ht
      rcases List.mem_append.mp h with h | h
      · rcases List.mem_flatMap.mp h with ⟨pu', _, hmem⟩
        rcases mem_addPartOps pu' _ hmem with ⟨t, ht⟩ | ⟨g, ht⟩ <;>
          exact Op.noConfusion ht
      rcases List.mem_append.mp h with h | h
      · rcases List.mem_flatMap.mp h with ⟨pu', hmem', hmem⟩
        rcases mem_growPartOps pu' _ hmem with ⟨t, ht⟩ | ⟨ht, hgrow⟩
        · exact Op.noConfusion ht
        · simp only [Op.resize.injEq] at ht
          obtain ⟨hp1, hn⟩ := ht
          have heu : pu'.2 = u :=
            entry_unique d.partition_updates hndP p u hpu pu' hmem' hp1.symm
          rw [heu] at hn hgrow
          omega
      · rcases List.mem_flatMap.mp h with ⟨pu', _, hmem⟩
        rcases mem_moveTargetOps pu' _ hmem with ⟨t, ht⟩ | ⟨gs, gt, _, _, _, ht⟩ <;>
          exact Op.noConfusion ht
    · intro op hop
      rintro ⟨g, m, rfl⟩
      rcases List.mem_append.mp hop with h | h
      · rcases mem_preOps d _ h with ⟨t, ht⟩ | ht <;> exact Op.noConfusion ht
      rcases List.mem_append.mp h with h | h
      · rcases List.mem_flatMap.mp h with ⟨pu', _, hmem⟩
        exact Op.noConfusion (mem_removePartOps pu' _ hmem)
      rcases List.mem_append.mp h with h | h
      · rcases List.mem_flatMap.mp h with ⟨pu', _, hmem⟩
        rcases mem_moveDefaultOps pu' _ hmem with ⟨t, ht⟩ | ht <;>
          exact Op.noConfusion ht
      · rcases List.mem_flatMap.mp h with ⟨pu', _, hmem⟩
        rcases mem_shrinkPartOps pu' _ hmem with ⟨t, ht⟩ | ⟨ht, _⟩ <;>
          exact Op.noConfusion ht
  · have hco : d.Compute =
        (preOps d ++ (d.partition_updates.flatMap removePartOps ++
         (d.partition_updates.flatMap moveDefaultOps ++
          (d.partition_updates.flatMap shrinkPartOps ++
           (d.group_updates.flatMap groupRemoveShrinkOps ++
            d.group_updates.flatMap groupAddGrowOps))))) ++
        (d.partition_updates.flatMap addPartOps ++
         (d.partition_updates.flatMap growPartOps ++
          d.partition_updates.flatMap moveTargetOps)) := by
      simp [DynamicPartitionsDifference.Compute, hbwv, List.append_assoc]
    rw [hco]
    apply opsOrdered_of_split
    · intro op hop hP
      rcases List.mem_append.mp hop with h | h
      · rcases List.mem_flatMap.mp h with ⟨pu', _, hmem⟩
        rcases mem_addPartOps pu' _ hmem with ⟨t, ht⟩ | ⟨g, ht⟩ <;> subst ht <;>
          rcases hP with ⟨g2, m2, ht2⟩ | ⟨g2, m2, ht2⟩ <;> exact Op.noConfusion ht2
      rcases List.mem_append.mp h with h | h
      · rcases List.mem_flatMap.mp h with ⟨pu', _, hmem⟩
        rcases mem_growPartOps pu' _ hmem with ⟨t, ht⟩ | ⟨ht, _⟩ <;> subst ht <;>
          rcases hP with ⟨g2, m2, ht2⟩ | ⟨g2, m2, ht2⟩ <;> exact Op.noConfusion ht2
      · rcases List.mem_flatMap.mp h with ⟨pu', _, hmem⟩
        rcases mem_moveTargetOps pu' _ hmem with ⟨t, ht⟩ | ⟨gs, gt, _, _, _, ht⟩ <;>
          subst ht <;>
          rcases hP with ⟨g2, m2, ht2⟩ | ⟨g2, m2, ht2⟩ <;> exact Op.noConfusion ht2
    · intro op hop
      rintro (⟨g, rfl⟩ | ⟨n, rfl, hgt⟩)
      · rcases List.mem_append.mp hop with h | h
        · rcases mem_preOps d _ h with ⟨t, ht⟩ | ht <;> exact Op.noConfusion ht
        rcases List.mem_append.mp h with h | h
        · rcases List.mem_flatMap.mp h with ⟨pu', _, hmem⟩
          exact Op.noConfusion (mem_removePartOps pu' _ hmem)
        rcases List.mem_append.mp h with h | h
        · rcases List.mem_flatMap.mp h with ⟨pu', _, hmem⟩
          rcases mem_moveDefaultOps pu' _ hmem with ⟨t, ht⟩ | ht <;>
            exact Op.noConfusion ht
        rcases List.mem_append.mp h with h | h
        · rcases List.mem_flatMap.mp h with ⟨pu', _, hmem⟩
          rcases mem_shrinkPartOps pu' _ hmem with ⟨t, ht⟩ | ⟨ht, _⟩ <;>
            exact Op.noConfusion ht
        rcases List.mem_append.mp h with h | h
        · rcases List.mem_flatMap.mp h with ⟨ge, _, hmem⟩
          rcases mem_groupRemoveShrinkOps ge _ hmem with ⟨t, ht⟩ | ht | ⟨m, ht⟩ <;>
            exact Op.noConfusion ht
        · rcases List.mem_flatMap.mp h with ⟨ge, _, hmem⟩
          rcases mem_groupAddGrowOps ge _ hmem with ⟨t, ht⟩ | ⟨m, ht⟩ | ⟨m, ht⟩ <;>
            exact Op.noConfusion ht
      · rcases List.mem_append.mp hop with h | h
        · rcases mem_preOps d _ h with ⟨t, ht⟩ | ht <;> exact Op.noConfusion ht
        rcases List.mem_append.mp h with h | h
        · rcases List.mem_flatMap.mp h with ⟨pu', _, hmem⟩
          exact Op.noConfusion (mem_removePartOps pu' _ hmem)
        rcases List.mem_append.mp h with h | h
        · rcases List.mem_flatMap.mp h with ⟨pu', _, hmem⟩
          rcases mem_moveDefaultOps pu' _ hmem with ⟨t, ht⟩ | ht <;>
            exact Op.noConfusion ht
        rcases List.mem_append.mp h with h | h
        · rcases List.mem_flatMap.mp h with ⟨pu', hmem', hmem⟩
          rcases mem_shrinkPartOps pu' _ hmem with ⟨t, ht⟩ | ⟨ht, hshrink⟩
          · exact Op.noConfusion ht
          · simp only [Op.resize.injEq] at ht
            obtain ⟨hp1, hn⟩ := ht
            have heu : pu'.2 = u :=
              entry_unique d.partition_updates hndP p u hpu pu' hmem' hp1.symm
            rw [heu] at hn hshrink
            omega
        rcases List.mem_append.mp h with h | h
        · rcases List.mem_flatMap.mp h with ⟨ge, _, hmem⟩
          rcases mem_groupRemoveShrinkOps ge _ hmem with ⟨t, ht⟩ | ht | ⟨m, ht⟩ <;>
            exact Op.noConfusion ht
        · rcases List.mem_flatMap.mp h with ⟨ge, _, hmem⟩
          rcases mem_groupAddGrowOps ge _ hmem with ⟨t, ht⟩ | ⟨m, ht⟩ | ⟨m, ht⟩ <;>
            exact Op.noConfusion ht

end Common

namespace Common

/-- C4: a partition whose source and target groups both exist and differ
is staged through the transient `default` group: the list contains
`move p default`, contains `move p <target-group>`, every
`add_group`/`resize_group` of the target group precedes every
`move p <target-group>` (so no direct move before the group is set up),
and when the target group is new it is added by an explicit `add_group`. -/
theorem claim_C4_move_via_default (d : DynamicPartitionsDifference)
    (hbwv : d.build_without_vendor = false)
    (p : String) (u : DynamicPartitionUpdate)
    (hpu : (p, u) ∈ d.partition_updates)
    (gs gt : String) (hsg : u.src_group = some gs)
    (htg : u.tgt_group = some gt) (hne : gs ≠ gt)
    (hgtdef : gt ≠ "default") :
    Op.move p "default" ∈ d.Compute ∧
    Op.move p gt ∈ d.Compute ∧
    OpsOrdered (fun op => (∃ m, op = Op.add_group gt m) ∨
        (∃ m, op = Op.resize_group gt m))
      (fun op => op = Op.move p gt) d.Compute ∧
    (∀ gu, (gt, gu) ∈ d.group_updates → gu.src_size = none →
      ∀ c, gu.tgt_size = some c → Op.add_group gt c ∈ d.Compute) := by
  have hco : d.Compute =
      (preOps d ++ (d.partition_updates.flatMap removePartOps ++
       (d.partition_updates.flatMap moveDefaultOps ++
        (d.partition_updates.flatMap shrinkPartOps ++
         (d.group_updates.flatMap groupRemoveShrinkOps ++
          d.group_updates.flatMap groupAddGrowOps))))) ++
      (d.partition_updates.flatMap addPartOps ++
       (d.partition_updates.flatMap growPartOps ++
        d.partition_updates.flatMap moveTargetOps)) := by
    simp [DynamicPartitionsDifference.Compute, hbwv, List.append_assoc]
  have hmvd : Op.move p "default" ∈
      d.partition_updates.flatMap moveDefaultOps := by
    apply List.mem_flatMap.mpr
    refine ⟨(p, u), hpu, ?_⟩
    simp [moveDefaultOps, hsg, htg, hne]
  have hmvt : Op.move p gt ∈
      d.partition_updates.flatMap moveTargetOps := by
    apply List.mem_flatMap.mpr
    refine ⟨(p, u), hpu, ?_⟩
    simp [moveTargetOps, hsg, htg, hne]
  refine ⟨?_, ?_, ?_, ?_⟩
  · rw [hco]
    apply List.mem_append_left
    apply List.mem_append_right
    apply List.mem_append_right
    exact List.mem_append_left _ hmvd
  · rw [hco]
    apply List.mem_append_right
    apply List.mem_append_right
    exact List.mem_append_right _ hmvt
  · rw [hco]
    apply opsOrdered_of_split
    · intro op hop hP
      rcases List.mem_append.mp hop with h | h
      · rcases List.mem_flatMap.mp h with ⟨pu', _, hmem⟩
        rcases mem_addPartOps pu' _ hmem with ⟨t, ht⟩ | ⟨g, ht⟩ <;> subst ht <;>
          rcases hP with ⟨m2, ht2⟩ | ⟨m2, ht2⟩ <;> exact Op.noConfusion ht2
      rcases List.mem_append.mp h with h | h
      · rcases List.mem_flatMap.mp h with ⟨pu', _, hmem⟩
        rcases mem_growPartOps pu' _ hmem with ⟨t, ht⟩ | ⟨ht, _⟩ <;> subst ht <;>
          rcases hP with ⟨m2, ht2⟩ | ⟨m2, ht2⟩ <;> exact Op.noConfusion ht2
      · rcases List.mem_flatMap.mp h with ⟨pu', _, hmem⟩
        rcases mem_moveTargetOps pu' _ hmem with ⟨t, ht⟩ | ⟨gs2, gt2, _, _, _, ht⟩ <;>
          subst ht <;>
          rcases hP with ⟨m2, ht2⟩ | ⟨m2, ht2⟩ <;> exact Op.noConfusion ht2
    · intro op hop
      rintro rfl
      rcases List.mem_append.mp hop with h | h
      · rcases mem_preOps d _ h with ⟨t, ht⟩ | ht <;> exact Op.noConfusion ht
      rcases List.mem_append.mp h with h | h
      · rcases List.mem_flatMap.mp h with ⟨pu', _, hmem⟩
        exact Op.noConfusion (mem_removePartOps pu' _ hmem)
      rcases List.mem_append.mp h with h | h
      · rcases List.mem_flatMap.mp h with ⟨pu', _, hmem⟩
        rcases mem_moveDefaultOps pu' _ hmem with ⟨t, ht⟩ | ht
        · exact Op.noConfusion ht
        · simp only [Op.move.injEq] at ht
          exact hgtdef ht.2
      rcases List.mem_append.mp h with h | h
      · rcases List.mem_flatMap.mp h with ⟨pu', _, hmem⟩
        rcases mem_shrinkPartOps pu' _ hmem with ⟨t, ht⟩ | ⟨ht, _⟩ <;>
          exact Op.noConfusion ht
      rcases List.mem_append.mp h with h | h
      · rcases List.mem_flatMap.mp h with ⟨ge, _, hmem⟩
        rcases mem_groupRemoveShrinkOps ge _ hmem with ⟨t, ht⟩ | ht | ⟨m, ht⟩ <;>
          exact Op.noConfusion ht
      · rcases List.mem_flatMap.mp h with ⟨ge, _, hmem⟩
        rcases mem_groupAddGrowOps ge _ hmem with ⟨t, ht⟩ | ⟨m, ht⟩ | ⟨m, ht⟩ <;>
          exact Op.noConfusion ht
  · intro gu hgu hsrc c htgt
    rw [hco]
    apply List.mem_append_left
    apply List.mem_append_right
    apply List.mem_append_right
    apply List.mem_append_right
    apply List.mem_append_right
    apply List.mem_append_right
    apply List.mem_flatMap.mpr
    refine ⟨(gt, gu), hgu, ?_⟩
    simp [groupAddGrowOps, hsrc, htgt]

end Common

namespace Common

/-! ## C8: minimality -/

theorem unchangedPart_no_ops (p : String) (u : DynamicPartitionUpdate)
    (hgg : u.src_group = u.tgt_group) (hss : u.src_size = u.tgt_size) :
    removePartOps (p, u) = [] ∧ moveDefaultOps (p, u) = [] ∧
    shrinkPartOps (p, u) = [] ∧ addPartOps (p, u) = [] ∧
    growPartOps (p, u) = [] ∧ moveTargetOps (p, u) = [] := by
  obtain ⟨sg, tg, ss, ts⟩ := u
  simp only at hgg hss
  subst hgg
  subst hss
  rcases sg with _ | gs <;>
    simp [removePartOps, moveDefaultOps, shrinkPartOps, addPartOps,
      growPartOps, moveTargetOps]

theorem unchangedGroup_no_ops (g : String) (gu : DynamicGroupUpdate)
    (h : gu.src_size = gu.tgt_size) :
    groupRemoveShrinkOps (g, gu) = [] ∧ groupAddGrowOps (g, gu) = [] := by
  obtain ⟨ss, ts⟩ := gu
  simp only at h
  subst h
  rcases ss with _ | s <;>
    simp [groupRemoveShrinkOps, groupAddGrowOps]

/-- Amendment of C8 that holds on the code: on the normal path an
unchanged partition and an unchanged group contribute no operation, while
the system-only build mode emits only comments and `resize` operations -
but there it emits a `resize` for every partition, changed or not. -/
theorem claim_C8_minimality_amended (d : DynamicPartitionsDifference)
    (hndP : (d.partition_updates.map Prod.fst).Nodup)
    (hndG : (d.group_updates.map Prod.fst).Nodup) :
    (d.build_without_vendor = false →
      (∀ p u, (p, u) ∈ d.partition_updates → u.src_group = u.tgt_group →
        u.src_size = u.tgt_size →
        ∀ op ∈ d.Compute, ¬ MentionsPartitionOp p op) ∧
      (∀ g gu, (g, gu) ∈ d.group_updates → gu.src_size = gu.tgt_size →
        ∀ op ∈ d.Compute, ¬ MentionsGroupCeilingOp g op)) ∧
    (d.build_without_vendor = true →
      (∀ op ∈ d.Compute, op.isComment = true ∨ ∃ q n, op = Op.resize q n) ∧
      (∀ pu ∈ d.partition_updates,
        Op.resize pu.1 pu.2.tgt_size ∈ d.Compute)) := by
  constructor
  · intro hbwv
    have hco : d.Compute =
        preOps d ++ (d.partition_updates.flatMap removePartOps ++
        (d.partition_updates.flatMap moveDefaultOps ++
        (d.partition_updates.flatMap shrinkPartOps ++
        (d.group_updates.flatMap groupRemoveShrinkOps ++
        (d.group_updates.flatMap groupAddGrowOps ++
        (d.partition_updates.flatMap addPartOps ++
        (d.partition_updates.flatMap growPartOps ++
        d.partition_updates.flatMap moveTargetOps))))))) := by
      simp [DynamicPartitionsDifference.Compute, hbwv, List.append_assoc]
    constructor
    · intro p u hpu hgg hss op hop hM
      obtain ⟨hrm, hmv, hsh, had, hgr, hmt⟩ := unchangedPart_no_ops p u hgg hss
      rw [hco] at hop
      have hself : ∀ (pu' : String × DynamicPartitionUpdate),
          pu' ∈ d.partition_updates → pu'.1 = p → pu' = (p, u) := by
        intro pu' hpu' hname
        have := entry_unique d.partition_updates hndP p u hpu pu' hpu' hname
        obtain ⟨a, b⟩ := pu'
        simp only at hname this
        rw [hname, this]
      rcases List.mem_append.mp hop with h | h
      · rcases mem_preOps d _ h with ⟨t, ht⟩ | ht <;> subst ht <;>
          simp [MentionsPartitionOp] at hM
      rcases List.mem_append.mp h with h | h
      · rcases List.mem_flatMap.mp h with ⟨pu', hpu', hmem⟩
        have ht := mem_removePartOps pu' _ hmem
        subst ht
        simp only [MentionsPartitionOp] at hM
        rw [hself pu' hpu' hM] at hmem
        rw [hrm] at hmem
        cases hmem
      rcases List.mem_append.mp h with h | h
      · rcases List.mem_flatMap.mp h with ⟨pu', hpu', hmem⟩
        rcases mem_moveDefaultOps pu' _ hmem with ⟨t, ht⟩ | ht <;> subst ht <;>
          simp only [MentionsPartitionOp] at hM
        rw [hself pu' hpu' hM] at hmem
        rw [hmv] at hmem
        cases hmem
      rcases List.mem_append.mp h with h | h
      · rcases List.mem_flatMap.mp h with ⟨pu', hpu', hmem⟩
        rcases mem_shrinkPartOps pu' _ hmem with ⟨t, ht⟩ | ⟨ht, _⟩ <;> subst ht <;>
          simp only [MentionsPartitionOp] at hM
        rw [hself pu' hpu' hM] at hmem
        rw [hsh] at hmem
        cases hmem
      rcases List.mem_append.mp h with h | h
      · rcases List.mem_flatMap.mp h with ⟨ge, _, hmem⟩
        rcases mem_groupRemoveShrinkOps ge _ hmem with ⟨t, ht⟩ | ht | ⟨m, ht⟩ <;>
          subst ht <;> simp [MentionsPartitionOp] at hM
      rcases List.mem_append.mp h with h | h
      · rcases List.mem_flatMap.mp h with ⟨ge, _, hmem⟩
        rcases mem_groupAddGrowOps ge _ hmem with ⟨t, ht⟩ | ⟨m, ht⟩ | ⟨m, ht⟩ <;>
          subst ht <;> simp [MentionsPartitionOp] at hM
      rcases List.mem_append.mp h with h | h
      · rcases List.mem_flatMap.mp h with ⟨pu', hpu', hmem⟩
        rcases mem_addPartOps pu' _ hmem with ⟨t, ht⟩ | ⟨g, ht⟩ <;> subst ht <;>
          simp only [MentionsPartitionOp] at hM
        rw [hself pu' hpu' hM] at hmem
        rw [had] at hmem
        cases hmem
      rcases List.mem_append.mp h with h | h
      · rcases List.mem_flatMap.mp h with ⟨pu', hpu', hmem⟩
        rcases mem_growPartOps pu' _ hmem with ⟨t, ht⟩ | ⟨ht, _⟩ <;> subst ht <;>
          simp only [MentionsPartitionOp] at hM
        rw [hself pu' hpu' hM] at hmem
        rw [hgr] at hmem
        cases hmem
      · rcases List.mem_flatMap.mp h with ⟨pu', hpu', hmem⟩
        rcases mem_moveTargetOps pu' _ hmem with ⟨t, ht⟩ | ⟨g1, g2, _, _, _, ht⟩ <;>
          subst ht <;> simp only [MentionsPartitionOp] at hM
        rw [hself pu' hpu' hM] at hmem
        rw [hmt] at hmem
        cases hmem
    · intro g gu hgu heq op hop hM
      obtain ⟨h6, h7⟩ := unchangedGroup_no_ops g gu heq
      rw [hco] at hop
      have hself : ∀ (ge : String × DynamicGroupUpdate),
          ge ∈ d.group_updates → ge.1 = g → ge = (g, gu) := by
        intro ge hge hname
        have := entry_unique d.group_updates hndG g gu hgu ge hge hname
        obtain ⟨a, b⟩ := ge
        simp only at hname this
        rw [hname, this]
      rcases List.mem_append.mp hop with h | h
      · rcases mem_preOps d _ h with ⟨t, ht⟩ | ht <;> subst ht <;>
          simp [MentionsGroupCeilingOp] at hM
      rcases List.mem_append.mp h with h | h
      · rcases List.mem_flatMap.mp h with ⟨pu', _, hmem⟩
        have ht := mem_removePartOps pu' _ hmem
        subst ht
        simp [MentionsGroupCeilingOp] at hM
      rcases List.mem_append.mp h with h | h
      · rcases List.mem_flatMap.mp h with ⟨pu', _, hmem⟩
        rcases mem_moveDefaultOps pu' _ hmem with ⟨t, ht⟩ | ht <;> subst ht <;>
          simp [MentionsGroupCeilingOp] at hM
      rcases List.mem_append.mp h with h | h
      · rcases List.mem_flatMap.mp h with ⟨pu', _, hmem⟩
        rcases mem_shrinkPartOps pu' _ hmem with ⟨t, ht⟩ | ⟨ht, _⟩ <;> subst ht <;>
          simp [MentionsGroupCeilingOp] at hM
      rcases List.mem_append.mp h with h | h
      · rcases List.mem_flatMap.mp h with ⟨ge, hge, hmem⟩
        rcases mem_groupRemoveShrinkOps ge _ hmem with ⟨t, ht⟩ | ht | ⟨m, ht⟩ <;>
          subst ht <;> simp only [MentionsGroupCeilingOp] at hM
        · rw [hself ge hge hM] at hmem
          rw [h6] at hmem
          cases hmem
        · rw [hself ge hge hM] at hmem
          rw [h6] at hmem
          cases hmem
      rcases List.mem_append.mp h with h | h
      · rcases List.mem_flatMap.mp h with ⟨ge, hge, hmem⟩
        rcases mem_groupAddGrowOps ge _ hmem with ⟨t, ht⟩ | ⟨m, ht⟩ | ⟨m, ht⟩ <;>
          subst ht <;> simp only [MentionsGroupCeilingOp] at hM
        · rw [hself ge hge hM] at hmem
          rw [h7] at hmem
          cases hmem
        · rw [hself ge hge hM] at hmem
          rw [h7] at hmem
          cases hmem
      rcases List.mem_append.mp h with h | h
      · rcases List.mem_flatMap.mp h with ⟨pu', _, hmem⟩
        rcases mem_addPartOps pu' _ hmem with ⟨t, ht⟩ | ⟨g2, ht⟩ <;> subst ht <;>
          simp [MentionsGroupCeilingOp] at hM
      rcases List.mem_append.mp h with h | h
      · rcases List.mem_flatMap.mp h with ⟨pu', _, hmem⟩
        rcases mem_growPartOps pu' _ hmem with ⟨t, ht⟩ | ⟨ht, _⟩ <;> subst ht <;>
          simp [MentionsGroupCeilingOp] at hM
      · rcases List.mem_flatMap.mp h with ⟨pu', _, hmem⟩
        rcases mem_moveTargetOps pu' _ hmem with ⟨t, ht⟩ | ⟨g1, g2, _, _, _, ht⟩ <;>
          subst ht <;> simp [MentionsGroupCeilingOp] at hM
  · intro hbwv
    have hco : d.Compute =
        Op.comment "System-only build, keep original vendor partition" ::
        d.partition_updates.flatMap bwvResizeOps := by
      simp [DynamicPartitionsDifference.Compute, hbwv]
    constructor
    · intro op hop
      rw [hco] at hop
      rcases List.mem_cons.mp hop with h | h
      · subst h
        exact Or.inl rfl
      · rcases List.mem_flatMap.mp h with ⟨pu', _, hmem⟩
        rcases mem_bwvResizeOps pu' _ hmem with ⟨t, ht⟩ | ht <;> subst ht
        · exact Or.inl rfl
        · exact Or.inr ⟨_, _, rfl⟩
    · intro pu hpu
      rw [hco]
      apply List.mem_cons_of_mem
      apply List.mem_flatMap.mpr
      refine ⟨pu, hpu, ?_⟩
      simp [bwvResizeOps]

/-- Counterexample to C8 as stated: in the system-only build mode, the
partition `system` with unchanged group and unchanged size 100 still
contributes an operation (`resize system 100`). -/
theorem claim_C8_counterexample :
    dExampleBwv.build_without_vendor = true ∧
    (∀ pu ∈ dExampleBwv.partition_updates,
      pu.2.src_group = pu.2.tgt_group ∧ pu.2.src_size = pu.2.tgt_size) ∧
    (∀ ge ∈ dExampleBwv.group_updates, ge.2.src_size = ge.2.tgt_size) ∧
    Op.resize "system" 100 ∈ dExampleBwv.Compute ∧
    MentionsPartitionOp "system" (Op.resize "system" 100) := by
  refine ⟨rfl, by decide, by decide, ?_, rfl⟩
  simp [DynamicPartitionsDifference.Compute, dExampleBwv, bwvResizeOps]

end Common

namespace Common

/-! ## Constructor lemmas -/

theorem mk_fields (info : InfoDict) (bds : List BlockDifference)
    (srcinfo : Option InfoDict) (bwv : Bool)
    (d : DynamicPartitionsDifference)
    (h : mkDynamicPartitionsDifference info bds srcinfo bwv = .ok d) :
    d.build_without_vendor = bwv ∧
    d.remove_all_before_apply = srcinfo.isNone := by
  simp only [mkDynamicPartitionsDifference] at h
  repeat' split at h
  all_goals first
    | (simp only [Except.ok.injEq] at h
       subst h
       exact ⟨rfl, rfl⟩)
    | (exact absurd h (by simp))

/-- C5: a `DynamicPartitionsDifference` constructed with no source
topology at all (`source_info_dict is None`) and not in system-only-build
mode produces an operation list whose first non-comment line is
`remove_all_groups`. -/
theorem claim_C5_full_install_first_op (info : InfoDict)
    (bds : List BlockDifference) (d : DynamicPartitionsDifference)
    (h : mkDynamicPartitionsDifference info bds none false = .ok d) :
    firstNonCommentOp d.Compute = some Op.remove_all_groups := by
  obtain ⟨hbwv, hra⟩ := mk_fields info bds none false d h
  have hra' : d.remove_all_before_apply = true := hra
  have hco : d.Compute =
      (Op.comment ("Remove all existing dynamic partitions and groups " ++
        "before applying full OTA") ::
       Op.remove_all_groups ::
       (d.partition_updates.flatMap removePartOps ++
        (d.partition_updates.flatMap moveDefaultOps ++
        (d.partition_updates.flatMap shrinkPartOps ++
        (d.group_updates.flatMap groupRemoveShrinkOps ++
        (d.group_updates.flatMap groupAddGrowOps ++
        (d.partition_updates.flatMap addPartOps ++
        (d.partition_updates.flatMap growPartOps ++
        d.partition_updates.flatMap moveTargetOps)))))))) := by
    simp [DynamicPartitionsDifference.Compute, preOps, hbwv, hra',
      List.append_assoc]
  rw [hco]
  simp [firstNonCommentOp, Op.isComment, List.filter_cons]

/-- Witness for C5: the empty full install constructs successfully and
its first non-comment operation is `remove_all_groups`. -/
theorem claim_C5_witness :
    mkDynamicPartitionsDifference emptyInfoDict [] none false =
      Except.ok dFull ∧
    firstNonCommentOp dFull.Compute = some Op.remove_all_groups :=
  ⟨by rfl,
   claim_C5_full_install_first_op emptyInfoDict [] dFull (by rfl)⟩

end Common

namespace Common

/-! ## Characterizing the group-assignment loops -/

theorem setEntry_keys {β : Type} (l : List (String × β)) (k : String)
    (f : β → β) : (setEntry l k f).map Prod.fst = l.map Prod.fst := by
  induction l with
  | nil => rfl
  | cons a rest ih =>
      simp only [setEntry, List.map_cons] at ih ⊢
      rw [ih]
      split_ifs <;> rfl

theorem containsKey_keys {β : Type} (l : List (String × β)) (p : String) :
    containsKey l p = (l.map Prod.fst).any (fun x => x == p) := by
  induction l with
  | nil => rfl
  | cons a rest ih =>
      simp only [containsKey, List.any_cons, List.map_cons] at ih ⊢
      rw [ih]

theorem containsKey_congr {β γ : Type} (l₁ : List (String × β))
    (l₂ : List (String × γ)) (h : l₁.map Prod.fst = l₂.map Prod.fst)
    (p : String) : containsKey l₁ p = containsKey l₂ p := by
  rw [containsKey_keys, containsKey_keys, h]

theorem setEntry_sizesView
    (f : DynamicPartitionUpdate → DynamicPartitionUpdate)
    (hf : ∀ u, (f u).src_size = u.src_size ∧ (f u).tgt_size = u.tgt_size)
    (l : List (String × DynamicPartitionUpdate)) (k : String) :
    sizesView (setEntry l k f) = sizesView l := by
  induction l with
  | nil => rfl
  | cons a rest ih =>
      simp only [setEntry, sizesView, List.map_cons] at ih ⊢
      rw [ih]
      split_ifs <;> simp [(hf a.2).1, (hf a.2).2]

/-- The per-entry setters preserve names and sizes. -/
theorem setter_sizes (g : String) :
    (∀ u, ((setTgtGroup g u).src_size = u.src_size ∧
      (setTgtGroup g u).tgt_size = u.tgt_size)) ∧
    (∀ u, ((setSrcGroup g u).src_size = u.src_size ∧
      (setSrcGroup g u).tgt_size = u.tgt_size)) :=
  ⟨fun u => ⟨rfl, rfl⟩, fun u => ⟨rfl, rfl⟩⟩

theorem assignInner_ok (msgSide : String)
    (setter : String → DynamicPartitionUpdate → DynamicPartitionUpdate)
    (hset : ∀ g u, (setter g u).src_size = u.src_size ∧
      (setter g u).tgt_size = u.tgt_size)
    (g : String) (ps : List String) :
    ∀ ups, (∀ p ∈ ps, containsKey ups p = true) →
      ∃ u2, ps.foldlM (assignBody msgSide setter g) ups = Except.ok u2 ∧
        u2.map Prod.fst = ups.map Prod.fst ∧
        sizesView u2 = sizesView ups := by
  induction ps with
  | nil => exact fun ups _ => ⟨ups, rfl, rfl, rfl⟩
  | cons p rest ih =>
      intro ups hcov
      have hp : containsKey ups p = true :=
        hcov p (List.mem_cons_self p rest)
      have hstep : assignBody msgSide setter g ups p =
          Except.ok (setEntry ups p (setter g)) := by
        simp [assignBody, hp]
      have hkeys : (setEntry ups p (setter g)).map Prod.fst =
          ups.map Prod.fst := setEntry_keys ups p (setter g)
      have hcov2 : ∀ q ∈ rest, containsKey (setEntry ups p (setter g)) q
          = true := by
        intro q hq
        rw [containsKey_congr _ ups hkeys q]
        exact hcov q (List.mem_cons_of_mem p hq)
      obtain ⟨u2, hfold, hk2, hs2⟩ := ih (setEntry ups p (setter g)) hcov2
      refine ⟨u2, ?_, ?_, ?_⟩
      · rw [List.foldlM_cons, hstep]
        simpa using hfold
      · rw [hk2, hkeys]
      · rw [hs2, setEntry_sizesView (setter g) (hset g) ups p]

theorem assignInner_fail (msgSide : String)
    (setter : String → DynamicPartitionUpdate → DynamicPartitionUpdate)
    (g : String) (ps : List String) :
    ∀ ups, ¬ (∀ p ∈ ps, containsKey ups p = true) →
      ∃ e, ps.foldlM (assignBody msgSide setter g) ups =
        Except.error e := by
  induction ps with
  | nil => exact fun ups hn => absurd (by simp) hn
  | cons p rest ih =>
      intro ups hn
      by_cases hp : containsKey ups p = true
      · have hstep : assignBody msgSide setter g ups p =
            Except.ok (setEntry ups p (setter g)) := by
          simp [assignBody, hp]
        have hkeys := setEntry_keys ups p (setter g)
        have hn2 : ¬ (∀ q ∈ rest,
            containsKey (setEntry ups p (setter g)) q = true) := by
          intro hc
          apply hn
          intro q hq
          rcases List.mem_cons.mp hq with rfl | hq2
          · exact hp
          · rw [← containsKey_congr _ ups hkeys q]
            exact hc q hq2
        obtain ⟨e, hfold⟩ := ih (setEntry ups p (setter g)) hn2
        refine ⟨e, ?_⟩
        rw [List.foldlM_cons, hstep]
        simpa using hfold
      · refine ⟨p ++ " is in " ++ msgSide ++ " super_" ++ g ++
          "_partition_list but no BlockDifference object is provided.", ?_⟩
        rw [List.foldlM_cons]
        have hstep : assignBody msgSide setter g ups p = Except.error
            (p ++ " is in " ++ msgSide ++ " super_" ++ g ++
             "_partition_list but no BlockDifference object is provided.")
            := by
          simp [assignBody, hp]
        rw [hstep]
        rfl

theorem assignLoop_ok (msgSide : String)
    (setter : String → DynamicPartitionUpdate → DynamicPartitionUpdate)
    (hset : ∀ g u, (setter g u).src_size = u.src_size ∧
      (setter g u).tgt_size = u.tgt_size)
    (groups : List String) (lists : String → List String) :
    ∀ updates,
      (∀ g ∈ groups, ∀ p ∈ lists g, containsKey updates p = true) →
      ∃ u2, assignLoop msgSide setter updates groups lists =
          Except.ok u2 ∧
        u2.map Prod.fst = updates.map Prod.fst ∧
        sizesView u2 = sizesView updates := by
  induction groups with
  | nil => exact fun updates _ => ⟨updates, rfl, rfl, rfl⟩
  | cons g rest ih =>
      intro updates hcov
      obtain ⟨u1, hfold1, hk1, hs1⟩ := assignInner_ok msgSide setter hset g
        (lists g) updates (hcov g (List.mem_cons_self g rest))
      have hcov2 : ∀ g2 ∈ rest, ∀ p ∈ lists g2,
          containsKey u1 p = true := by
        intro g2 hg2 p hp
        rw [containsKey_congr _ updates hk1 p]
        exact hcov g2 (List.mem_cons_of_mem g hg2) p hp
      obtain ⟨u2, hfold2, hk2, hs2⟩ := ih u1 hcov2
      refine ⟨u2, ?_, ?_, ?_⟩
      · unfold assignLoop at hfold2 ⊢
        rw [List.foldlM_cons, hfold1]
        simpa using hfold2
      · rw [hk2, hk1]
      · rw [hs2, hs1]

theorem assignLoop_fail (msgSide : String)
    (setter : String → DynamicPartitionUpdate → DynamicPartitionUpdate)
    (hset : ∀ g u, (setter g u).src_size = u.src_size ∧
      (setter g u).tgt_size = u.tgt_size)
    (groups : List String) (lists : String → List String) :
    ∀ updates,
      ¬ (∀ g ∈ groups, ∀ p ∈ lists g, containsKey updates p = true) →
      ∃ e, assignLoop msgSide setter updates groups lists =
        Except.error e := by
  induction groups with
  | nil => exact fun updates hn => absurd (by simp) hn
  | cons g rest ih =>
      intro updates hn
      by_cases hg : ∀ p ∈ lists g, containsKey updates p = true
      · obtain ⟨u1, hfold1, hk1, hs1⟩ :=
          assignInner_ok msgSide setter hset g (lists g) updates hg
        have hn2 : ¬ (∀ g2 ∈ rest, ∀ p ∈ lists g2,
            containsKey u1 p = true) := by
          intro hc
          apply hn
          intro g2 hg2 p hp
          rcases List.mem_cons.mp hg2 with rfl | hg3
          · exact hg p hp
          · rw [← containsKey_congr _ updates hk1 p]
            exact hc g2 hg3 p hp
        obtain ⟨e, hfold2⟩ := ih u1 hn2
        refine ⟨e, ?_⟩
        unfold assignLoop at hfold2 ⊢
        rw [List.foldlM_cons, hfold1]
        simpa using hfold2
      · obtain ⟨e, hfold1⟩ :=
          assignInner_fail msgSide setter g (lists g) updates hg
        refine ⟨e, ?_⟩
        unfold assignLoop
        rw [List.foldlM_cons, hfold1]
        rfl

end Common

namespace Common

theorem initUpdates_keys (bds : List BlockDifference) :
    (initUpdates bds).map Prod.fst = bds.map (fun bd => bd.partition) := by
  simp [initUpdates, List.map_map]

theorem containsKey_iff_mem {β : Type} (l : List (String × β))
    (p : String) : containsKey l p = true ↔ p ∈ l.map Prod.fst := by
  rw [containsKey_keys]
  simp [List.any_eq_true]

theorem initUpdates_filter_tgt (bds : List BlockDifference) :
    ((initUpdates bds).filter
      (fun pu => pu.2.tgt_size != 0)).map Prod.fst =
    (bds.filter (fun bd =>
      GetSparseImageSize (some bd.tgt) != 0)).map
      (fun bd => bd.partition) := by
  induction bds with
  | nil => rfl
  | cons bd rest ih =>
      simp only [initUpdates, List.map_cons, List.filter_cons] at ih ⊢
      cases hb : (GetSparseImageSize (some bd.tgt) != 0) <;>
        simp [hb, ih]

theorem initUpdates_filter_src (bds : List BlockDifference) :
    ((initUpdates bds).filter
      (fun pu => pu.2.src_size != 0)).map Prod.fst =
    (bds.filter (fun bd => GetSparseImageSize bd.src != 0)).map
      (fun bd => bd.partition) := by
  induction bds with
  | nil => rfl
  | cons bd rest ih =>
      simp only [initUpdates, List.map_cons, List.filter_cons] at ih ⊢
      cases hb : (GetSparseImageSize bd.src != 0) <;>
        simp [hb, ih]

theorem filter_fst_of_sizesView (l₁ l₂ :
    List (String × DynamicPartitionUpdate))
    (h : sizesView l₁ = sizesView l₂) :
    ((l₁.filter (fun pu => pu.2.tgt_size != 0)).map Prod.fst =
      (l₂.filter (fun pu => pu.2.tgt_size != 0)).map Prod.fst) ∧
    ((l₁.filter (fun pu => pu.2.src_size != 0)).map Prod.fst =
      (l₂.filter (fun pu => pu.2.src_size != 0)).map Prod.fst) := by
  induction l₁ generalizing l₂ with
  | nil =>
      cases l₂ with
      | nil => exact ⟨rfl, rfl⟩
      | cons b r2 => simp [sizesView] at h
  | cons a r ih =>
      cases l₂ with
      | nil => simp [sizesView] at h
      | cons b r2 =>
          simp only [sizesView, List.map_cons, List.cons.injEq,
            Prod.mk.injEq] at h
          obtain ⟨⟨h1, h2, h3⟩, hrest⟩ := h
          obtain ⟨ihT, ihS⟩ := ih r2 hrest
          constructor
          · rw [List.filter_cons, List.filter_cons, h3]
            cases hb : (b.2.tgt_size != 0) <;> simp [hb, ihT, h1]
          · rw [List.filter_cons, List.filter_cons, h2]
            cases hb : (b.2.src_size != 0) <;> simp [hb, ihS, h1]

end Common

namespace Common

/-- Amendment of C6 that holds on the code: construction succeeds exactly
when the supplied BlockDifference list has no duplicated partition names,
every partition named in a declared target or source per-group partition
list has a supplied BlockDifference, and the set of partitions with
non-zero target (resp. source) size equals the declared target (resp.
source) dynamic-partition set. -/
theorem claim_C6_construction_checks (info : InfoDict)
    (bds : List BlockDifference) (srcinfo : Option InfoDict) (bwv : Bool) :
    exceptIsOk (mkDynamicPartitionsDifference info bds srcinfo bwv)
      = true ↔
      ((bds.map (fun bd => bd.partition)).Nodup ∧
       (∀ g ∈ info.super_partition_groups,
          ∀ p ∈ info.super_group_partition_list g,
            p ∈ bds.map (fun bd => bd.partition)) ∧
       (∀ g ∈ (srcinfo.getD emptyInfoDict).super_partition_groups,
          ∀ p ∈ (srcinfo.getD emptyInfoDict).super_group_partition_list g,
            p ∈ bds.map (fun bd => bd.partition)) ∧
       sameStringSet ((bds.filter (fun bd =>
           GetSparseImageSize (some bd.tgt) != 0)).map
           (fun bd => bd.partition)) info.dynamic_partition_list = true ∧
       sameStringSet ((bds.filter (fun bd =>
           GetSparseImageSize bd.src != 0)).map (fun bd => bd.partition))
         (srcinfo.getD emptyInfoDict).dynamic_partition_list = true) := by
  have hmemiff : ∀ p, containsKey (initUpdates bds) p = true ↔
      p ∈ bds.map (fun bd => bd.partition) := by
    intro p
    rw [containsKey_iff_mem, initUpdates_keys]
  by_cases hnd : (bds.map (fun bd => bd.partition)).Nodup
  · by_cases hcovT : ∀ g ∈ info.super_partition_groups,
        ∀ p ∈ info.super_group_partition_list g,
          containsKey (initUpdates bds) p = true
    · obtain ⟨u1, hf1, hk1, hs1⟩ := assignLoop_ok "target" setTgtGroup
        (fun g => (setter_sizes g).1) info.super_partition_groups
        info.super_group_partition_list (initUpdates bds) hcovT
      have hA : assignTgtGroups (initUpdates bds)
          info.super_partition_groups info.super_group_partition_list =
          Except.ok u1 := hf1
      by_cases hcovS : ∀ g ∈
          (srcinfo.getD emptyInfoDict).super_partition_groups,
          ∀ p ∈ (srcinfo.getD emptyInfoDict).super_group_partition_list g,
            containsKey u1 p = true
      · obtain ⟨u2, hf2, hk2, hs2⟩ := assignLoop_ok "source" setSrcGroup
          (fun g => (setter_sizes g).2)
          (srcinfo.getD emptyInfoDict).super_partition_groups
          (srcinfo.getD emptyInfoDict).super_group_partition_list u1 hcovS
        have hB : assignSrcGroups u1
            (srcinfo.getD emptyInfoDict).super_partition_groups
            (srcinfo.getD emptyInfoDict).super_group_partition_list =
            Except.ok u2 := hf2
        have hTeq : ((u2.filter (fun pu => pu.2.tgt_size != 0)).map
            Prod.fst) = (bds.filter (fun bd =>
              GetSparseImageSize (some bd.tgt) != 0)).map
              (fun bd => bd.partition) :=
          (filter_fst_of_sizesView u2 (initUpdates bds)
            (hs2.trans hs1)).1.trans (initUpdates_filter_tgt bds)
        have hSeq : ((u2.filter (fun pu => pu.2.src_size != 0)).map
            Prod.fst) = (bds.filter (fun bd =>
              GetSparseImageSize bd.src != 0)).map
              (fun bd => bd.partition) :=
          (filter_fst_of_sizesView u2 (initUpdates bds)
            (hs2.trans hs1)).2.trans (initUpdates_filter_src bds)
        have hmk : mkDynamicPartitionsDifference info bds srcinfo bwv =
            (if sameStringSet ((bds.filter (fun bd =>
                GetSparseImageSize (some bd.tgt) != 0)).map
                (fun bd => bd.partition)) info.dynamic_partition_list then
              if sameStringSet ((bds.filter (fun bd =>
                  GetSparseImageSize bd.src != 0)).map
                  (fun bd => bd.partition))
                  (srcinfo.getD emptyInfoDict).dynamic_partition_list then
                Except.ok ⟨u2, buildGroupUpdates
                  info.super_partition_groups
                  (srcinfo.getD emptyInfoDict).super_partition_groups
                  info (srcinfo.getD emptyInfoDict),
                  bwv, srcinfo.isNone⟩
              else Except.error "Source Dynamic partitions mismatch"
            else Except.error "Target Dynamic partitions mismatch") := by
          simp only [mkDynamicPartitionsDifference, hnd, if_true, hA, hB,
            hTeq, hSeq]
        have hcovT' : ∀ g ∈ info.super_partition_groups,
            ∀ p ∈ info.super_group_partition_list g,
              p ∈ bds.map (fun bd => bd.partition) :=
          fun g hg p hp => (hmemiff p).mp (hcovT g hg p hp)
        have hcovS' : ∀ g ∈
            (srcinfo.getD emptyInfoDict).super_partition_groups,
            ∀ p ∈ (srcinfo.getD emptyInfoDict).super_group_partition_list
              g, p ∈ bds.map (fun bd => bd.partition) := by
          intro g hg p hp
          apply (hmemiff p).mp
          rw [← containsKey_congr u1 (initUpdates bds) hk1 p]
          exact hcovS g hg p hp
        rw [hmk]
        by_cases hT : sameStringSet ((bds.filter (fun bd =>
            GetSparseImageSize (some bd.tgt) != 0)).map
            (fun bd => bd.partition)) info.dynamic_partition_list = true
        · by_cases hS : sameStringSet ((bds.filter (fun bd =>
              GetSparseImageSize bd.src != 0)).map
              (fun bd => bd.partition))
              (srcinfo.getD emptyInfoDict).dynamic_partition_list = true
          · rw [if_pos hT, if_pos hS]
            exact ⟨fun _ => ⟨hnd, hcovT', hcovS', hT, hS⟩, fun _ => rfl⟩
          · rw [if_pos hT, if_neg hS]
            constructor
            · intro hok
              exact absurd hok (by simp [exceptIsOk])
            · rintro ⟨-, -, -, -, hS2⟩
              exact absurd hS2 hS
        · simp only [if_neg hT]
          constructor
          · intro hok
            exact absurd hok (by simp [exceptIsOk])
          · rintro ⟨-, -, -, hT2, -⟩
            exact absurd hT2 hT
      · obtain ⟨e, hf2⟩ := assignLoop_fail "source" setSrcGroup
          (fun g => (setter_sizes g).2)
          (srcinfo.getD emptyInfoDict).super_partition_groups
          (srcinfo.getD emptyInfoDict).super_group_partition_list u1 hcovS
        have hB : assignSrcGroups u1
            (srcinfo.getD emptyInfoDict).super_partition_groups
            (srcinfo.getD emptyInfoDict).super_group_partition_list =
            Except.error e := hf2
        have hmk : mkDynamicPartitionsDifference info bds srcinfo bwv =
            Except.error e := by
          simp only [mkDynamicPartitionsDifference, hnd, if_true, hA, hB]
        rw [hmk]
        constructor
        · intro hok
          exact absurd hok (by simp [exceptIsOk])
        · rintro ⟨-, -, hcovS', -, -⟩
          exfalso
          apply hcovS
          intro g hg p hp
          rw [containsKey_congr u1 (initUpdates bds) hk1 p]
          exact (hmemiff p).mpr (hcovS' g hg p hp)
    · obtain ⟨e, hf1⟩ := assignLoop_fail "target" setTgtGroup
        (fun g => (setter_sizes g).1) info.super_partition_groups
        info.super_group_partition_list (initUpdates bds) hcovT
      have hA : assignTgtGroups (initUpdates bds)
          info.super_partition_groups info.super_group_partition_list =
          Except.error e := hf1
      have hmk : mkDynamicPartitionsDifference info bds srcinfo bwv =
          Except.error e := by
        simp only [mkDynamicPartitionsDifference, hnd, if_true, hA]
      rw [hmk]
      constructor
      · intro hok
        exact absurd hok (by simp [exceptIsOk])
      · rintro ⟨-, hcovT', -, -, -⟩
        exfalso
        apply hcovT
        intro g hg p hp
        exact (hmemiff p).mpr (hcovT' g hg p hp)
  · have hmk : mkDynamicPartitionsDifference info bds srcinfo bwv =
        Except.error "Duplicated BlockDifference object" := by
      simp only [mkDynamicPartitionsDifference, if_neg hnd]
    rw [hmk]
    constructor
    · intro hok
      exact absurd hok (by simp [exceptIsOk])
    · rintro ⟨hnd2, -, -, -, -⟩
      exact absurd hnd2 hnd

end Common

namespace Common

/-- Counterexample to C6 as stated: duplicated BlockDifference objects
for `system` satisfy every condition listed by the claim (all listed
partitions supplied, non-zero-size sets equal to the declared sets as
sets), yet construction fails fast on line 2477. -/
theorem claim_C6_counterexample :
    (∀ g ∈ infoC6.super_partition_groups,
       ∀ p ∈ infoC6.super_group_partition_list g,
         p ∈ [bdSystem, bdSystem].map (fun bd => bd.partition)) ∧
    (∀ g ∈ ((none : Option InfoDict).getD
        emptyInfoDict).super_partition_groups,
       ∀ p ∈ ((none : Option InfoDict).getD
          emptyInfoDict).super_group_partition_list g,
         p ∈ [bdSystem, bdSystem].map (fun bd => bd.partition)) ∧
    sameStringSet (([bdSystem, bdSystem].filter (fun bd =>
        GetSparseImageSize (some bd.tgt) != 0)).map
        (fun bd => bd.partition)) infoC6.dynamic_partition_list = true ∧
    sameStringSet (([bdSystem, bdSystem].filter (fun bd =>
        GetSparseImageSize bd.src != 0)).map (fun bd => bd.partition))
      ((none : Option InfoDict).getD
        emptyInfoDict).dynamic_partition_list = true ∧
    exceptIsOk (mkDynamicPartitionsDifference infoC6 [bdSystem, bdSystem]
      none false) = false :=
  ⟨by decide, by decide, by rfl, by rfl, by rfl⟩

/-- Witness for C1: the concrete topology `dExample` is well-formed and
valid on both sides, and the theorem applies to it. -/
theorem claim_C1_witness :
    WellFormed dExample ∧ ValidSource dExample ∧ ValidTarget dExample ∧
    dExample.build_without_vendor = false ∧
    ((∀ n, SafeState dExample
        (replay (srcState dExample) ((dExample.Compute).take n))) ∧
     replay (srcState dExample) dExample.Compute = tgtState dExample) := by
  have hwf : WellFormed dExample := by
    refine ⟨by decide, by decide, by decide, by decide, ?_⟩
    intro h
    exact absurd h (by decide)
  have hvs : ValidSource dExample := by
    intro ge hge c hc hc0
    fin_cases hge <;>
      simp_all [dExample, srcGroupSum, srcContrib] <;> omega
  have hvt : ValidTarget dExample := by
    intro ge hge c hc hc0
    fin_cases hge <;>
      simp_all [dExample, tgtGroupSum, tgtContrib] <;> omega
  exact ⟨hwf, hvs, hvt, rfl,
    claim_C1_replay_invariant dExample hwf hvs hvt rfl⟩

/-- Witness for C3 at `dExample`: partition `system` shrinks 90 -> 40 in
group `qassa` shrinking 100 -> 50. -/
theorem claim_C3_witness :
    dExample.build_without_vendor = false ∧
    (dExample.partition_updates.map Prod.fst).Nodup ∧
    ("system", (⟨some "qassa", some "qassa", 90, 40⟩ :
      DynamicPartitionUpdate)) ∈ dExample.partition_updates ∧
    (OpsOrdered (fun op => ∃ n, op = Op.resize "system" n ∧ n < 90)
      (fun op => ∃ g m, op = Op.resize_group g m) dExample.Compute ∧
     OpsOrdered (fun op => (∃ g m, op = Op.add_group g m) ∨
        (∃ g m, op = Op.resize_group g m))
      (fun op => (∃ g, op = Op.add "system" g) ∨
        (∃ n, op = Op.resize "system" n ∧ 90 < n)) dExample.Compute) :=
  ⟨rfl, by decide, by decide,
   claim_C3_cascade_order dExample rfl (by decide) "system"
     ⟨some "qassa", some "qassa", 90, 40⟩ (by decide)⟩

/-- Witness for C4 at `dExample`: partition `odm` moves from `oldg` to
the newly added group `newg`. -/
theorem claim_C4_witness :
    dExample.build_without_vendor = false ∧
    ("odm", (⟨some "oldg", some "newg", 30, 30⟩ :
      DynamicPartitionUpdate)) ∈ dExample.partition_updates ∧
    (Op.move "odm" "default" ∈ dExample.Compute ∧
     Op.move "odm" "newg" ∈ dExample.Compute ∧
     OpsOrdered (fun op => (∃ m, op = Op.add_group "newg" m) ∨
        (∃ m, op = Op.resize_group "newg" m))
      (fun op => op = Op.move "odm" "newg") dExample.Compute ∧
     (∀ gu, ("newg", gu) ∈ dExample.group_updates → gu.src_size = none →
       ∀ c, gu.tgt_size = some c →
         Op.add_group "newg" c ∈ dExample.Compute)) :=
  ⟨rfl, by decide,
   claim_C4_move_via_default dExample rfl "odm"
     ⟨some "oldg", some "newg", 30, 30⟩ (by decide) "oldg" "newg" rfl rfl
     (by decide) (by decide)⟩

/-- Witness for C8's amended theorem at `dExampleBwv`: the system-only
mode emits only comments and resizes, and every partition gets one. -/
theorem claim_C8_witness :
    (dExampleBwv.partition_updates.map Prod.fst).Nodup ∧
    (dExampleBwv.group_updates.map Prod.fst).Nodup ∧
    (dExampleBwv.build_without_vendor = true →
      (∀ op ∈ dExampleBwv.Compute,
        op.isComment = true ∨ ∃ q n, op = Op.resize q n) ∧
      (∀ pu ∈ dExampleBwv.partition_updates,
        Op.resize pu.1 pu.2.tgt_size ∈ dExampleBwv.Compute)) :=
  ⟨by decide, by decide,
   (claim_C8_minimality_amended dExampleBwv (by decide) (by decide)).2⟩

end Common
